import Mathlib

/-!
# ActNexus backend — verification of the document-ingestion pipeline

Shallow embedding of the core of the ActNexus backend (PDF upload,
AI-extraction orchestration, usage ledger with PII sanitization) and
proofs of the specified properties.

Conventions:
* Python dict/list payloads are embedded as an inductive JSON-like value
  type (`JVal`).
* Python strings are `String` / `List Char`; Python `re` character
  classes are restricted to their ASCII meaning.
* Database/service effects are embedded as explicit state passing;
  a raised `HTTPException` is an `Except` error value.
-/

set_option maxHeartbeats 1600000

namespace ActNexus

/-! ## `AiUsageService._sanitize_data` (structural sanitization)

Source: `app/services/ai_usage_service.py`, lines 16-38.

`JVal` is the JSON-like shape of the loosely-typed payload dicts that
`_sanitize_data` walks; it is mutual with the list spine of arrays and
the association spine of objects so that structural recursion is
available. -/

mutual

inductive JVal where
  | str : String → JVal
  | int : Int → JVal
  | bool : Bool → JVal
  | null : JVal
  | arr : JArr → JVal
  | obj : JObj → JVal

inductive JArr where
  | nil : JArr
  | cons : JVal → JArr → JArr

inductive JObj where
  | nil : JObj
  | cons : String → JVal → JObj → JObj

end

/-- The sensitive-key terms of `_sanitize_data` (`sensitive_fields`). -/
def sensitive_fields : List String :=
  ["password", "senha", "token", "key", "secret", "cpf", "cnpj",
   "rg", "passport", "credit_card", "cartao", "account", "conta"]

/-- Python `str.lower`, restricted to ASCII (kernel-reducible). -/
def pyLower (s : String) : String := ⟨s.data.map Char.toLower⟩

/-- `a` is a prefix of `b` (kernel-reducible). -/
def pfxOf : List Char → List Char → Bool
  | [], _ => true
  | _ :: _, [] => false
  | a :: as, b :: bs => a == b && pfxOf as bs

/-- Python `a in b`: `a` occurs as a contiguous substring of `b`
(kernel-reducible). -/
def infxOf (p : List Char) : List Char → Bool
  | [] => pfxOf p []
  | c :: t => pfxOf p (c :: t) || infxOf p t

/-- Python `str.endswith` (kernel-reducible). -/
def endsWithL (s suffix : List Char) : Bool := pfxOf suffix.reverse s.reverse

/-- Python `str.strip()`: drop whitespace from both ends
(kernel-reducible). -/
def pyStrip (s : String) : String :=
  ⟨((s.data.dropWhile Char.isWhitespace).reverse.dropWhile
      Char.isWhitespace).reverse⟩

/-- `any(field in key.lower() for field in sensitive_fields)`:
case-insensitive substring test against the sensitive terms. -/
def isSensitiveKey (key : String) : Bool :=
  sensitive_fields.any (fun f => infxOf f.data (pyLower key).data)

/-- `isinstance(value, (dict, list))`. -/
def JVal.isContainer : JVal → Bool
  | .arr _ => true
  | .obj _ => true
  | _ => false

/-- The redaction marker `"[REDACTED]"`. -/
def redacted : JVal := .str "[REDACTED]"

mutual

/-- `AiUsageService._sanitize_data`: walks dicts and lists; a key whose
lowercased name contains a sensitive term has its whole value replaced by
the redaction marker, container values are sanitized recursively, and
everything else is returned unchanged. -/
def sanitize_data : JVal → JVal
  | .obj o => .obj (sanitize_dataObj o)
  | .arr a => .arr (sanitize_dataArr a)
  | v => v

/-- List branch of `_sanitize_data`: sanitize every item. -/
def sanitize_dataArr : JArr → JArr
  | .nil => .nil
  | .cons v rest => .cons (sanitize_data v) (sanitize_dataArr rest)

/-- Dict branch of `_sanitize_data`: redact sensitive keys, recurse into
container values, keep other values as-is. -/
def sanitize_dataObj : JObj → JObj
  | .nil => .nil
  | .cons k v rest =>
    if isSensitiveKey k then .cons k redacted (sanitize_dataObj rest)
    else if v.isContainer then .cons k (sanitize_data v) (sanitize_dataObj rest)
    else .cons k v (sanitize_dataObj rest)

end

mutual

/-- Relation between an input value and a correctly sanitized output:
same shape, same keys in the same order, every sensitive key's value
replaced by the redaction marker (at any nesting depth), every other
non-container value unchanged. -/
def SanitizedFrom : JVal → JVal → Prop
  | .obj o, .obj o' => SanitizedFromObj o o'
  | .arr a, .arr a' => SanitizedFromArr a a'
  | v, w => v.isContainer = false ∧ v = w

/-- Array part of `SanitizedFrom`: pointwise. -/
def SanitizedFromArr : JArr → JArr → Prop
  | .nil, .nil => True
  | .cons v r, .cons w r' => SanitizedFrom v w ∧ SanitizedFromArr r r'
  | _, _ => False

/-- Object part of `SanitizedFrom`: keys preserved; a sensitive key maps
to the redaction marker, any other key to a sanitized copy of its value. -/
def SanitizedFromObj : JObj → JObj → Prop
  | .nil, .nil => True
  | .cons k v r, .cons k' w r' =>
    k = k' ∧ (if isSensitiveKey k then w = redacted else SanitizedFrom v w) ∧
      SanitizedFromObj r r'
  | _, _ => False

end


/-! ## `AiUsageService._sanitize_prompt` (pattern-based sanitization)

Source: `app/services/ai_usage_service.py`, lines 40-60.  The six
Python regexes are embedded as matchers over `List Char`; `re.sub` is
embedded as the left-to-right scanner `subst`.  Python `re`'s `\d`,
`\w`, `\s` are taken in their ASCII meaning. -/

/-- Python `\w` (ASCII): letters, digits, underscore. -/
def isWordChar (c : Char) : Bool := c.isAlphanum || c == '_'

/-- Python `\s` (ASCII): the six whitespace characters. -/
def isPySpace (c : Char) : Bool :=
  c == ' ' || c == '\t' || c == '\n' || c == '\r' || c == '\x0b' || c == '\x0c'

/-- Wordness of the first character of a list; an empty list (end of
string) counts as non-word, matching `\b` at the end of the input. -/
def headW : List Char → Bool
  | [] => false
  | c :: _ => isWordChar c

/-- Wordness of the last character of a (nonempty) consumed chunk. -/
def lastW (l : List Char) : Bool := isWordChar (l.getLastD '~')

/-- `\b` before a match starting with character `c`, given the wordness
`prev` of the preceding character (start of string counts non-word). -/
def bdryB (prev : Bool) (c : Char) : Bool := prev != isWordChar c

/-- `\b` after a consumed chunk `pre`, before the remainder `r`. -/
def bdryA (pre r : List Char) : Bool := lastW pre != headW r

/-- Partial parse of `l`: a consumed prefix and the remainder. -/
structure PRes (l : List Char) where
  pre : List Char
  rest : List Char
  heq : l = pre ++ rest

/-- A successful match at the current position: a nonempty consumed
prefix and the remainder. -/
structure MRes (l : List Char) where
  pre : List Char
  rest : List Char
  heq : l = pre ++ rest
  hne : pre ≠ []

/-- A matcher tries to match its pattern at the start of `l`, given the
wordness of the preceding character. -/
abbrev Matcher := Bool → (l : List Char) → Option (MRes l)

/-- Parse a single character satisfying `cls`. -/
def pcls (cls : Char → Bool) : ∀ l : List Char, Option (PRes l) := fun l =>
  match l with
  | x :: rest => if cls x then some ⟨[x], rest, rfl⟩ else none
  | [] => none

/-- Parse the literal character `c`. -/
def pchar (c : Char) : ∀ l : List Char, Option (PRes l) := pcls (fun x => x == c)

/-- Sequencing of parsers. -/
def pseq (p q : ∀ l : List Char, Option (PRes l)) :
    ∀ l : List Char, Option (PRes l) := fun l =>
  match p l with
  | none => none
  | some ⟨a, r, h⟩ =>
    match q r with
    | none => none
    | some ⟨b, r2, h2⟩ =>
      some ⟨a ++ b, r2, by rw [h, h2, List.append_assoc]⟩

/-- Parse exactly `n` decimal digits (`\d{n}`). -/
def pdigits : Nat → ∀ l : List Char, Option (PRes l)
  | 0 => fun l => some ⟨[], l, rfl⟩
  | n + 1 => pseq (pcls Char.isDigit) (pdigits n)

/-- Greedy optional parser (`?`); the backtracking into the empty
alternative collapses because every use site follows with a parser whose
first character class is disjoint from `p`'s. -/
def popt (p : ∀ l : List Char, Option (PRes l)) :
    ∀ l : List Char, Option (PRes l) := fun l =>
  match p l with
  | some r => some r
  | none => some ⟨[], l, rfl⟩

/-- Ordered alternative (`|` / bounded repetition backtracking). -/
def palt (p q : ∀ l : List Char, Option (PRes l)) :
    ∀ l : List Char, Option (PRes l) := fun l =>
  match p l with
  | some r => some r
  | none => q l

/-- Wraps a bare parser into a matcher: requires a nonempty parse and
the `\b` word boundaries on both sides. -/
def mkMatcher (p : ∀ l : List Char, Option (PRes l)) : Matcher := fun prev l =>
  match p l with
  | some ⟨c :: cs, rest, h⟩ =>
    if bdryB prev c && bdryA (c :: cs) rest then
      some ⟨c :: cs, rest, h, by simp⟩
    else none
  | _ => none

/-- `\b\d{3}\.\d{3}\.\d{3}-\d{2}\b` (CPF). -/
def cpfM : Matcher :=
  mkMatcher <| pseq (pdigits 3) <| pseq (pchar '.') <| pseq (pdigits 3) <|
    pseq (pchar '.') <| pseq (pdigits 3) <| pseq (pchar '-') (pdigits 2)

/-- `\b\d{2}\.\d{3}\.\d{3}/\d{4}-\d{2}\b` (CNPJ). -/
def cnpjM : Matcher :=
  mkMatcher <| pseq (pdigits 2) <| pseq (pchar '.') <| pseq (pdigits 3) <|
    pseq (pchar '.') <| pseq (pdigits 3) <| pseq (pchar '/') <|
    pseq (pdigits 4) <| pseq (pchar '-') (pdigits 2)

/-- The common tail `\.\d{3}\.\d{3}-\d{1}` of the RG pattern. -/
def rgTail : ∀ l : List Char, Option (PRes l) :=
  pseq (pchar '.') <| pseq (pdigits 3) <| pseq (pchar '.') <|
    pseq (pdigits 3) <| pseq (pchar '-') (pdigits 1)

/-- `\b\d{1,2}\.\d{3}\.\d{3}-\d{1}\b` (RG); `\d{1,2}` is greedy, so the
two-digit alternative is tried first. -/
def rgM : Matcher :=
  mkMatcher <| palt (pseq (pdigits 2) rgTail) (pseq (pdigits 1) rgTail)

/-- `\b\d{4}\s?\d{4}\s?\d{4}\s?\d{4}\b` (card number). -/
def cardM : Matcher :=
  mkMatcher <| pseq (pdigits 4) <| pseq (popt (pcls isPySpace)) <|
    pseq (pdigits 4) <| pseq (popt (pcls isPySpace)) <|
    pseq (pdigits 4) <| pseq (popt (pcls isPySpace)) (pdigits 4)

/-- `\b\d{5}-?\d{3}\b` (CEP). -/
def cepM : Matcher :=
  mkMatcher <| pseq (pdigits 5) <| pseq (popt (pchar '-')) (pdigits 3)

/-- `[A-Za-z0-9._%+-]`, the e-mail local-part class. -/
def localCls (c : Char) : Bool :=
  c.isAlpha || c.isDigit || c == '.' || c == '_' || c == '%' || c == '+' || c == '-'

/-- `[A-Za-z0-9.-]`, the e-mail domain class. -/
def domCls (c : Char) : Bool := c.isAlpha || c.isDigit || c == '.' || c == '-'

/-- `[A-Z|a-z]`, the e-mail "TLD" class — as written in the source it
literally also contains the pipe character. -/
def tldCls (c : Char) : Bool := c.isAlpha || c == '|'

/-- Greedy maximal run of characters in `cls` (possibly empty). -/
def prun (cls : Char → Bool) : ∀ l : List Char, PRes l := fun l =>
  match l with
  | [] => ⟨[], [], rfl⟩
  | c :: cs =>
    if cls c then
      let r := prun cls cs
      ⟨c :: r.pre, r.rest, by rw [List.cons_append, ← r.heq]⟩
    else ⟨[], c :: cs, rfl⟩

/-- First `some` value of `f` along a list (backtracking order). -/
def firstSome {α β : Type _} (f : α → Option β) : List α → Option β
  | [] => none
  | a :: as =>
    match f a with
    | some b => some b
    | none => firstSome f as

/-- `[A-Z|a-z]{2,}\b` with greedy backtracking: the longest prefix of
length ≥ 2 inside the class whose following position is a boundary. -/
def emailTld : ∀ l : List Char, Option (PRes l) := fun l =>
  firstSome
    (fun t =>
      if 2 ≤ t ∧ (l.take t).length = t ∧ (l.take t).all tldCls ∧
          bdryA (l.take t) (l.drop t) = true then
        some ⟨l.take t, l.drop t, (l.take_append_drop t).symm⟩
      else none)
    ((List.range (l.length + 1)).reverse)

/-- `[A-Za-z0-9.-]+\.[A-Z|a-z]{2,}\b` with greedy backtracking: the
domain run is tried longest-first; for each split the literal dot and
then the TLD part must follow. -/
def emailDomTail : ∀ l : List Char, Option (PRes l) := fun l =>
  firstSome
    (fun k =>
      if 1 ≤ k ∧ (l.take k).length = k ∧ (l.take k).all domCls then
        match h : l.drop k with
        | '.' :: r3 =>
          (emailTld r3).map fun t =>
            ⟨l.take k ++ '.' :: t.pre, t.rest, by
              calc l = l.take k ++ l.drop k := (l.take_append_drop k).symm
                _ = l.take k ++ '.' :: r3 := by rw [h]
                _ = l.take k ++ '.' :: (t.pre ++ t.rest) := by rw [← t.heq]
                _ = (l.take k ++ '.' :: t.pre) ++ t.rest := by
                      simp [List.append_assoc]⟩
        | _ => none
      else none)
    ((List.range (l.length + 1)).reverse)

/-- `\b[A-Za-z0-9._%+-]+@[A-Za-z0-9.-]+\.[A-Z|a-z]{2,}\b` (e-mail).
The local part is a maximal class run (its follower `@` is outside the
class, so greedy `+` never backtracks), then the domain/TLD tail. -/
def emailM : Matcher := fun prev l =>
  let L := prun localCls l
  match hpre : L.pre with
  | [] => none
  | c :: cs =>
    if bdryB prev c then
      match hrest : L.rest with
      | '@' :: r2 =>
        (emailDomTail r2).map fun t =>
          ⟨(c :: cs) ++ '@' :: t.pre, t.rest, by
            calc l = L.pre ++ L.rest := L.heq
              _ = (c :: cs) ++ '@' :: r2 := by rw [hpre, hrest]
              _ = (c :: cs) ++ '@' :: (t.pre ++ t.rest) := by rw [← t.heq]
              _ = ((c :: cs) ++ '@' :: t.pre) ++ t.rest := by
                    simp [List.append_assoc], by simp⟩
      | _ => none
    else none

/-- `re.sub(pattern, rep, ·)`: left-to-right scan; at each position the
pattern is tried; on a match the replacement is emitted and scanning
resumes after the consumed text (the preceding-character wordness used
for `\b` is that of the original text). -/
def subst (m : Matcher) (rep : List Char) : Bool → (l : List Char) → List Char
  | _, [] => []
  | prev, c :: cs =>
    match m prev (c :: cs) with
    | some res => rep ++ subst m rep (lastW res.pre) res.rest
    | none => c :: subst m rep (isWordChar c) cs
termination_by _ l => l.length
decreasing_by
  · have h1 := congrArg List.length res.heq
    rw [List.length_append] at h1
    have h2 : 0 < res.pre.length := List.length_pos.mpr res.hne
    omega
  · simp

/-- No match of `m` at any position of `l`, scanning with initial
preceding-character wordness `prev` (kernel-reducible). -/
def noMatch (m : Matcher) : Bool → List Char → Bool
  | _, [] => true
  | prev, c :: cs => (m prev (c :: cs)).isNone && noMatch m (isWordChar c) cs

/-- The abstract matcher interface used by the substitution lemmas:
matches never contain a bracket, always contain a digit or `@`, and
respect the `\b` boundaries; `tail_stable` says a match whose consumed
part is unchanged survives any change of the remainder that preserves
the wordness of its first character. -/
structure MOK (m : Matcher) : Prop where
  no_lbr : ∀ prev l res, m prev l = some res → '[' ∉ res.pre
  no_rbr : ∀ prev l res, m prev l = some res → ']' ∉ res.pre
  has_mark : ∀ prev l res, m prev l = some res →
    ∃ c ∈ res.pre, c.isDigit = true ∨ c = '@'
  bdry_before : ∀ prev l res, m prev l = some res →
    bdryB prev (res.pre.headD '~') = true
  bdry_after : ∀ prev l res, m prev l = some res → bdryA res.pre res.rest = true
  tail_stable : ∀ prev a r r' res, m prev (a ++ r) = some res → res.pre = a →
    headW r' = headW r → (m prev (a ++ r')).isSome = true

/-- The shape of the replacement tokens: an opening bracket, interior
characters that can occur in no match (no digits, no `@`, no brackets),
and a closing bracket. -/
def RepOK (rep : List Char) : Prop :=
  ∃ mid, rep = '[' :: mid ++ [']'] ∧
    ∀ c ∈ mid, c.isDigit = false ∧ c ≠ '@' ∧ c ≠ '[' ∧ c ≠ ']'

/-- Characters allowed in a match: anything but the brackets (used as
the common character-set bound of all six matchers). -/
def noBr (c : Char) : Bool := !(c == '[') && !(c == ']')

/-- Characters allowed strictly inside a replacement token. -/
def midprop (c : Char) : Prop :=
  c.isDigit = false ∧ c ≠ '@' ∧ c ≠ '[' ∧ c ≠ ']'

/-- Every character a parser consumes lies in `σ`. -/
def PCharset (σ : Char → Bool) (p : ∀ l : List Char, Option (PRes l)) : Prop :=
  ∀ l res, p l = some res → ∀ c ∈ res.pre, σ c = true

/-- The parser consumes at least one character. -/
def PMinOne (p : ∀ l : List Char, Option (PRes l)) : Prop :=
  ∀ l res, p l = some res → res.pre ≠ []

/-- The first consumed character is a decimal digit. -/
def PHeadDigit (p : ∀ l : List Char, Option (PRes l)) : Prop :=
  ∀ l res, p l = some res → (res.pre.headD '~').isDigit = true

/-- A successful parse is insensitive to the remainder: it reproduces
with its consumed part followed by any other remainder. -/
def PTailStable (p : ∀ l : List Char, Option (PRes l)) : Prop :=
  ∀ l (res : PRes l) (r' : List Char), p l = some res →
    ∃ h, p (res.pre ++ r') = some ⟨res.pre, r', h⟩

/-- The six substitutions of `_sanitize_prompt`, in source order. -/
def sanitize_promptL (l : List Char) : List Char :=
  subst cepM "[CEP]".toList false <|
    subst emailM "[EMAIL]".toList false <|
      subst cardM "[CARD]".toList false <|
        subst rgM "[RG]".toList false <|
          subst cnpjM "[CNPJ]".toList false <|
            subst cpfM "[CPF]".toList false l

/-- `AiUsageService._sanitize_prompt`: empty prompts are returned as-is,
otherwise the six pattern substitutions are applied. -/
def sanitize_prompt (s : String) : String :=
  if s.isEmpty then s else ⟨sanitize_promptL s.data⟩

/-! ## `LangFlowService` response adapters

Source: `app/services/langflow_service.py`.  An upstream response is a
JSON object whose `outputs` key holds a list of loosely-typed output
dicts; each adapter reads its fields with `.get` defaults.  The output
dict is embedded as a record whose fields are `Option`s (absent key =
`none`); `d.get(k, v)` becomes `.getD v`.  A raised `ValueError` is an
`Except.error`. -/

/-- The optional `livro_metadata` fields read by the orchestrator. -/
structure LivroMetadataRaw where
  numero : Option String := none
  ano : Option Int := none
  tipo : Option String := none
  data_abertura : Option String := none
  data_encerramento : Option String := none
deriving DecidableEq

/-- A raw act dict inside `outputs[0]["atos"]`. -/
structure RawAto where
  numero : Option String := none
  tipo : Option String := none
  data_ato : Option String := none
  conteudo_original : Option String := none
  conteudo_markdown : Option String := none
  partes : Option (List String) := none
  observacoes : Option String := none
  confidence : Option Rat := none
deriving DecidableEq

/-- A raw semantic-search result dict. -/
structure RawSearchItem where
  ato_id : Option Nat := none
  livro_id : Option Nat := none
  numero : Option String := none
  tipo : Option String := none
  similarity : Option Rat := none
  excerpt : Option String := none
  highlight : Option String := none
deriving DecidableEq

/-- One entry of the upstream `outputs` array, with every field any of
the five adapters reads (absent keys are `none`). -/
structure RawOutput where
  livro_metadata : Option LivroMetadataRaw := none
  atos : Option (List RawAto) := none
  processing_time : Option Rat := none
  partes : Option (List String) := none
  datas : Option (List String) := none
  valores : Option (List String) := none
  observacoes : Option String := none
  confidence : Option Rat := none
  tags : Option (List String) := none
  resumo : Option String := none
  results : Option (List RawSearchItem) := none
  original_query : Option String := none
  summary : Option String := none
  keywords : Option (List String) := none
  word_count : Option Nat := none
  classification : Option String := none
  entities : Option (List String) := none
  categories : Option (List String) := none
  reasoning : Option String := none
deriving DecidableEq

/-- An upstream response: the `outputs` array (missing key defaults to
the empty list, exactly like `response.get("outputs", [])`). -/
structure LFResponse where
  outputs : List RawOutput
deriving DecidableEq

/-- A processed act of `_process_pdf_response`. -/
structure ProcessedAto where
  numero : Option String
  tipo : Option String
  data_ato : Option String
  conteudo_original : String
  conteudo_markdown : String
  partes : List String
  observacoes : String
  status_ia : String
  confianca_ia : Rat
deriving DecidableEq

/-- The `processing_stats` block of `_process_pdf_response`. -/
structure ProcessingStats where
  total_atos : Nat
  processing_time : Rat
  confidence_avg : Rat
deriving DecidableEq

/-- The document-ingestion adapter's result. -/
structure PdfResult where
  livro_metadata : LivroMetadataRaw
  atos : List ProcessedAto
  processing_stats : ProcessingStats
deriving DecidableEq

/-- The `ValueError` message for a missing/empty `outputs` array. -/
def noOutputsMsg : String := "Resposta do LangFlow não contém outputs"

/-- `LangFlowService._process_pdf_response`: fails when `outputs` is
missing/empty, otherwise maps each raw act to a processed act (with
`.get` defaults) and computes the stats; the average confidence is
guarded by the emptiness test of the act list. -/
def process_pdf_response (r : LFResponse) : Except String PdfResult :=
  match r.outputs with
  | [] => .error noOutputsMsg
  | main :: _ =>
    let processed := main.atos.getD [] |>.map fun a =>
      { numero := a.numero
        tipo := a.tipo
        data_ato := a.data_ato
        conteudo_original := a.conteudo_original.getD ""
        conteudo_markdown := a.conteudo_markdown.getD ""
        partes := a.partes.getD []
        observacoes := a.observacoes.getD ""
        status_ia := "processado"
        confianca_ia := a.confidence.getD 0 }
    .ok
      { livro_metadata := main.livro_metadata.getD {}
        atos := processed
        processing_stats :=
          { total_atos := processed.length
            processing_time := main.processing_time.getD 0
            confidence_avg :=
              if processed.isEmpty then 0
              else (processed.map (·.confianca_ia)).sum / processed.length } }

/-- The detail-extraction adapter's result. -/
structure ActDetailsResult where
  partes : List String
  datas_importantes : List String
  valores : List String
  observacoes_ia : String
  confianca : Rat
  tags : List String
  resumo : String
deriving DecidableEq

/-- `LangFlowService._process_act_details_response`. -/
def process_act_details_response (r : LFResponse) : Except String ActDetailsResult :=
  match r.outputs with
  | [] => .error noOutputsMsg
  | main :: _ =>
    .ok
      { partes := main.partes.getD []
        datas_importantes := main.datas.getD []
        valores := main.valores.getD []
        observacoes_ia := main.observacoes.getD ""
        confianca := main.confidence.getD 0
        tags := main.tags.getD []
        resumo := main.resumo.getD "" }

/-- A processed semantic-search item. -/
structure SearchItem where
  ato_id : Option Nat
  livro_id : Option Nat
  numero : Option String
  tipo : Option String
  similarity_score : Rat
  excerpt : String
  highlight : String
deriving DecidableEq

/-- The semantic-search adapter's result; `query` and `processing_time`
are absent (`none`) in the defaulted empty-outputs dict. -/
structure SearchResult where
  results : List SearchItem
  total : Nat
  query : Option String
  processing_time : Option Rat
deriving DecidableEq

/-- `LangFlowService._process_search_response`: an empty `outputs`
array returns the defaulted `{"results": [], "total": 0}` dict instead
of raising. -/
def process_search_response (r : LFResponse) : Except String SearchResult :=
  match r.outputs with
  | [] => .ok { results := [], total := 0, query := none, processing_time := none }
  | main :: _ =>
    let processed := main.results.getD [] |>.map fun x =>
      { ato_id := x.ato_id
        livro_id := x.livro_id
        numero := x.numero
        tipo := x.tipo
        similarity_score := x.similarity.getD 0
        excerpt := x.excerpt.getD ""
        highlight := x.highlight.getD "" }
    .ok
      { results := processed
        total := processed.length
        query := some (main.original_query.getD "")
        processing_time := some (main.processing_time.getD 0) }

/-- The summarization adapter's result. -/
structure SummaryResult where
  summary : String
  keywords : List String
  confidence : Rat
  word_count : Nat
  processing_time : Rat
deriving DecidableEq

/-- `LangFlowService._process_summary_response`. -/
def process_summary_response (r : LFResponse) : Except String SummaryResult :=
  match r.outputs with
  | [] => .error noOutputsMsg
  | main :: _ =>
    .ok
      { summary := main.summary.getD ""
        keywords := main.keywords.getD []
        confidence := main.confidence.getD 0
        word_count := main.word_count.getD 0
        processing_time := main.processing_time.getD 0 }

/-- The classification adapter's result. -/
structure ClassificationResult where
  classification : String
  confidence : Rat
  entities : List String
  categories : List String
  reasoning : String
deriving DecidableEq

/-- `LangFlowService._process_classification_response`. -/
def process_classification_response (r : LFResponse) :
    Except String ClassificationResult :=
  match r.outputs with
  | [] => .error noOutputsMsg
  | main :: _ =>
    .ok
      { classification := main.classification.getD "unknown"
        confidence := main.confidence.getD 0
        entities := main.entities.getD []
        categories := main.categories.getD []
        reasoning := main.reasoning.getD "" }

/-- The hard per-call deadline of the AI client, in seconds
(`LangFlowService.__init__`, `self.timeout = 300`). -/
def langflow_timeout : Nat := 300

/-! ## `PDFProcessorService` and the book rows it mutates

Source: `app/services/pdf_processor.py` and
`app/services/livro_service.py` (`update_processing_status`).  The
`Livro` row is embedded with the fields the pipeline reads or writes;
reading/writing a row by id belongs to the excluded CRUD layer, so the
operations below take the looked-up row (`Option Livro` for a possibly
unknown id) and return the row they store. -/

/-- The `metadados_arquivo` dict written at upload time. -/
structure FileMeta where
  nome_original : String
  tamanho_bytes : Nat
  tipo_conteudo : String
  data_upload : String
  bucket : String
deriving DecidableEq

/-- The `metadados_processamento` dict written after extraction. -/
structure ProcMeta where
  data_processamento : String
  total_atos_extraidos : Nat
  tempo_processamento_segundos : Rat
  confianca_media : Rat
  versao_ia : String
deriving DecidableEq

/-- A Book (`Livro`) row, restricted to the fields the pipeline touches.
The source mutates two distinct status columns: `status` (written by the
upload path and by `_process_langflow_result`) and
`status_processamento` (written by `LivroService.update_processing_status`). -/
structure Livro where
  id : Nat
  numero : String
  ano : Int
  tipo : String
  status : String
  status_processamento : Option String := none
  url_pdf_original : Option String := none
  metadados_arquivo : Option FileMeta := none
  metadados_processamento : Option ProcMeta := none
  metadados_pdf_error : Option String := none
  data_abertura : Option String := none
  data_encerramento : Option String := none
deriving DecidableEq

/-- An HTTP error raised to the caller (`HTTPException`). -/
structure HErr where
  code : Nat
  detail : String
deriving DecidableEq

/-- `LivroService.update_processing_status` (error-message part of the
metadata dict modelled as the dedicated `metadados_pdf_error` field;
`if error_message:` is Python truthiness, so an empty message is not
recorded). -/
def update_processing_status (livro : Livro) (st : String)
    (error_message : Option String) : Livro :=
  let l1 := { livro with status_processamento := some st }
  match error_message with
  | some e =>
    if e.data.isEmpty then l1 else { l1 with metadados_pdf_error := some e }
  | none => l1

/-- The uploaded file's request metadata (`UploadFile`). -/
structure UploadedFile where
  filename : Option String
  content_type : Option String
deriving DecidableEq

/-- The object-store upload result dict used by the orchestrator. -/
structure UploadResult where
  object_name : String
  original_filename : String
  file_size : Nat
  content_type : String
  upload_timestamp : String
  bucket_name : String
deriving DecidableEq

/-- The PDF file-type guard of `upload_and_process_pdf`: the request is
rejected unless the content type is present, nonempty and contains
`"pdf"` (case-insensitively), or the filename ends in `".pdf"`
(case-insensitively); `not file.content_type` is Python truthiness. -/
def pdfFileOk (f : UploadedFile) : Bool :=
  (match f.content_type with
   | some ct => !ct.data.isEmpty && infxOf "pdf".data (pyLower ct).data
   | none => false) ||
  (match f.filename with
   | some fn => !fn.data.isEmpty && endsWithL (pyLower fn).data ".pdf".data
   | none => false)

/-- The acknowledgement dict returned by `upload_and_process_pdf`. -/
structure UploadAck where
  livro_id : Nat
  status : String
  processing_started : Bool
deriving DecidableEq

/-- Result of a successful upload: the stored row, the acknowledgement,
and whether a background extraction task was scheduled. -/
structure UploadOutcome where
  livro : Livro
  ack : UploadAck
  background_scheduled : Bool
deriving DecidableEq

/-- `PDFProcessorService.upload_and_process_pdf`: file-type guard, 404
for an unknown book id, then the row is updated with the object-store
reference, `status = "processando"` and the file metadata, a background
task is scheduled when requested, and the acknowledgement (reporting
`"uploaded"`) is returned immediately. -/
def upload_and_process_pdf (file : UploadedFile) (up : UploadResult)
    (livro? : Option Livro) (process_immediately : Bool) :
    Except HErr UploadOutcome :=
  if !pdfFileOk file then
    .error ⟨400, "Apenas arquivos PDF são aceitos"⟩
  else
    match livro? with
    | none => .error ⟨404, "Livro não encontrado"⟩
    | some livro =>
      let updated := { livro with
        url_pdf_original := some up.object_name
        status := "processando"
        metadados_arquivo := some
          { nome_original := up.original_filename
            tamanho_bytes := up.file_size
            tipo_conteudo := up.content_type
            data_upload := up.upload_timestamp
            bucket := up.bucket_name } }
      .ok
        { livro := updated
          ack :=
            { livro_id := livro.id
              status := "uploaded"
              processing_started := process_immediately }
          background_scheduled := process_immediately }

/-- The acknowledgement dict returned by `reprocess_pdf`. -/
structure ReprocessAck where
  livro_id : Nat
  status : String
deriving DecidableEq

/-- Result of a successful reprocess request: the stored row and the
scheduled background task's arguments. -/
structure ReprocessOutcome where
  livro : Livro
  bucket_name : String
  object_name : String
  ack : ReprocessAck
deriving DecidableEq

/-- `PDFProcessorService.reprocess_pdf`: 404 for an unknown id, 400 when
no PDF is stored (`not livro.url_pdf_original`, Python truthiness), 409
when `status == "processando"` and `force` is not set — raised before
any write, so the stored row is unchanged and no background task is
scheduled — otherwise the status update is applied and a background run
is scheduled.  The second component is the row as stored afterwards. -/
def reprocess_pdf (livro? : Option Livro) (force : Bool) :
    Except HErr ReprocessOutcome × Option Livro :=
  match livro? with
  | none => (.error ⟨404, "Livro não encontrado"⟩, none)
  | some livro =>
    if livro.url_pdf_original.getD "" |>.data.isEmpty then
      (.error ⟨400, "Livro não possui PDF para reprocessar"⟩, some livro)
    else if livro.status == "processando" && !force then
      (.error ⟨409,
        "Livro já está sendo processado. Use force=true para forçar reprocessamento"⟩,
       some livro)
    else
      let updated := update_processing_status livro "processando" none
      ((.ok
        { livro := updated
          bucket_name := (livro.metadados_arquivo.map (·.bucket)).getD "actnexus-livros"
          object_name := livro.url_pdf_original.getD ""
          ack := { livro_id := livro.id, status := "reprocessing_started" } }),
       some updated)

/-- `PDFProcessorService._process_langflow_result`: first the row is
updated — `status = "concluido"`, the processing metadata (whose
`total_atos_extraidos` is `len(atos_data)`, computed before the act
loop) and any extracted book metadata — then each returned act is
persisted independently, a failing act being logged and skipped.  Which
acts fail to persist (the per-act `AtoCreate`/`ato_service.create`
exception) is abstracted as the predicate `persistOk`.  Returns the
stored row and the acts actually created. -/
def process_langflow_result (persistOk : ProcessedAto → Bool)
    (livro : Livro) (result : PdfResult) (now : String) :
    Livro × List ProcessedAto :=
  let md := result.livro_metadata
  let updated := { livro with
    status := "concluido"
    metadados_processamento := some
      { data_processamento := now
        total_atos_extraidos := result.atos.length
        tempo_processamento_segundos := result.processing_stats.processing_time
        confianca_media := result.processing_stats.confidence_avg
        versao_ia := "langflow_v1" }
    numero := md.numero.getD livro.numero
    ano := md.ano.getD livro.ano
    tipo := md.tipo.getD livro.tipo
    data_abertura := match md.data_abertura with
      | some d => some d
      | none => livro.data_abertura
    data_encerramento := match md.data_encerramento with
      | some d => some d
      | none => livro.data_encerramento }
  let atos_criados := result.atos.filter persistOk
  (updated, atos_criados)

/-- Outcome of the awaited `langflow_service.process_pdf` call: the four
failure modes raised by `_make_request`/`_process_pdf_response`, or the
adapter's result. -/
inductive AIOutcome where
  | timeout
  | unavailable
  | upstreamErr (code : Nat)
  | malformed (msg : String)
  | ok (r : PdfResult)

/-- The error message of a failed AI call, as raised by
`LangFlowService` (the `HTTPException` detail / `ValueError` text). -/
def langflowErrMsg : AIOutcome → Option String
  | .timeout => some "Timeout no processamento de IA"
  | .unavailable => some "Serviço de IA indisponível"
  | .upstreamErr c => some ("Erro no serviço de IA: " ++ toString c)
  | .malformed m => some ("Erro ao interpretar resposta da IA: " ++ m)
  | .ok _ => none

/-- A usage-ledger row, restricted to the fields the pipeline writes. -/
structure LogEntry where
  status : String
  mensagem_erro : Option String := none
deriving DecidableEq

/-- Final observable state of one background run. -/
structure RunResult where
  livro : Livro
  log : LogEntry
  unhandled : Bool
deriving DecidableEq

/-- `PDFProcessorService.process_pdf_background`: opens a `"iniciado"`
ledger row, awaits the AI call, and on success finalizes the row and
persists the result; any exception of the AI call or of the persistence
step is caught by the inner handler (ledger row finalized `"erro"`,
book's processing status set `"erro"` with an error message), re-raised,
and swallowed by the outer handler (which repeats the book update), so
the task never terminates with an unhandled exception.  `persistFails`
abstracts an exception raised inside `_process_langflow_result` (with
text `persistErrMsg`); `str(exception)` is abstracted as the raised
detail/message. -/
def process_pdf_background (outcome : AIOutcome)
    (persistOk : ProcessedAto → Bool) (persistFails : Bool)
    (persistErrMsg : String) (livro : Livro) (now : String) : RunResult :=
  let log0 : LogEntry := { status := "iniciado" }
  match outcome with
  | .ok r =>
    let log1 := { log0 with status := "concluido" }
    if persistFails then
      let log2 := { log1 with status := "erro", mensagem_erro := some persistErrMsg }
      let livro1 := update_processing_status livro "erro"
        (some ("Erro no processamento de IA: " ++ persistErrMsg))
      let livro2 := update_processing_status livro1 "erro"
        (some ("Erro no processamento: " ++ persistErrMsg))
      { livro := livro2, log := log2, unhandled := false }
    else
      let (livro1, _) := process_langflow_result persistOk livro r now
      { livro := livro1, log := log1, unhandled := false }
  | f =>
    let msg := (langflowErrMsg f).getD ""
    let log1 := { log0 with status := "erro", mensagem_erro := some msg }
    let livro1 := update_processing_status livro "erro"
      (some ("Erro no processamento de IA: " ++ msg))
    let livro2 := update_processing_status livro1 "erro"
      (some ("Erro no processamento: " ++ msg))
    { livro := livro2, log := log1, unhandled := false }

/-! ## Usage-ledger entry creation and retention

Source: `app/schemas/ai_usage.py` (`validate_prompt`) and
`app/services/ai_usage_service.py` (`create_log`, `cleanup_old_logs`). -/

/-- The truncation marker appended by `validate_prompt`. -/
def truncMarker : String := "... [truncado]"

/-- `AiUsageLogBase.validate_prompt`: rejects blank prompts, caps
prompts longer than 10000 characters at the first 10000 characters plus
the truncation marker, and passes everything else through. -/
def validate_prompt (v : String) : Except String String :=
  if (pyStrip v).length = 0 then .error "Prompt não pode estar vazio"
  else if v.length > 10000 then .ok (v.take 10000 ++ truncMarker)
  else .ok v

/-- The payload of `AiUsageService.create_log` (already
schema-validated, so its `prompt` is the `validate_prompt` output). -/
structure LogCreate where
  tipo_operacao : String
  prompt : String
  dados_entrada : JVal
  resposta : JVal
  status : Option String := none

/-- A stored usage-ledger row as written by `create_log`. -/
structure StoredLog where
  tipo_operacao : String
  prompt : String
  dados_entrada : JVal
  resposta : JVal
  status : String

/-- `AiUsageService.create_log`: sanitizes the prompt and both payloads
before persisting; a missing status defaults to `"Concluído"`. -/
def create_log (d : LogCreate) : StoredLog :=
  { tipo_operacao := d.tipo_operacao
    prompt := sanitize_prompt d.prompt
    dados_entrada := sanitize_data d.dados_entrada
    resposta := sanitize_data d.resposta
    status := d.status.getD "Concluído" }

/-- A usage-ledger row as seen by the retention sweep. -/
structure AiUsageLogRow where
  id : Nat
  created_at : Int
deriving DecidableEq

/-- `AiUsageService.cleanup_old_logs`: computes the cutoff from the
retention window, counts the rows with `created_at < cutoff`, deletes
exactly those (when there are any) in one statement, and returns the
count.  Time is embedded as `Int` day-units, `cutoff = now − days`. -/
def cleanup_old_logs (now days_to_keep : Int) (st : List AiUsageLogRow) :
    Nat × List AiUsageLogRow :=
  let cutoff := now - days_to_keep
  let logs_to_delete := (st.filter fun e => decide (e.created_at < cutoff)).length
  if logs_to_delete > 0 then
    (logs_to_delete, st.filter fun e => !decide (e.created_at < cutoff))
  else
    (logs_to_delete, st)

/-! ## Spec-level status vocabulary and sample data -/

/-- The specification's Book status machine states. -/
inductive SpecStatus where
  | noDocument
  | uploaded
  | processing
  | completed
  | failed
deriving DecidableEq

/-- Denotation of the stored status strings used by the pipeline in the
specification's vocabulary (`"processando"` = Processing, `"concluido"`
= Completed, `"erro"` = Failed). -/
def statusOfCode (s : String) : Option SpecStatus :=
  if s = "processando" then some .processing
  else if s = "concluido" then some .completed
  else if s = "erro" then some .failed
  else none

/-- A sample stored book row used by concrete witnesses. -/
def sampleLivro : Livro :=
  { id := 42, numero := "42", ano := 2024, tipo := "Notas", status := "aberto" }

/-- A sample book row that is mid-processing and has a stored PDF. -/
def processingLivro : Livro :=
  { sampleLivro with
    status := "processando"
    url_pdf_original := some "livros/42/doc.pdf" }

/-- A sample book row that is mid-processing but has no stored PDF. -/
def processingLivroNoPdf : Livro :=
  { sampleLivro with status := "processando" }

/-- A sample PDF upload request. -/
def samplePdfFile : UploadedFile :=
  { filename := some "livro.pdf", content_type := some "application/pdf" }

/-- A sample object-store upload result. -/
def sampleUpload : UploadResult :=
  { object_name := "livros/42/doc.pdf"
    original_filename := "livro.pdf"
    file_size := 51200
    content_type := "application/pdf"
    upload_timestamp := "2024-01-01T00:00:00"
    bucket_name := "actnexus-livros" }

/-- A sample processed act. -/
def sampleAto : ProcessedAto :=
  { numero := some "1"
    tipo := some "Escritura"
    data_ato := none
    conteudo_original := ""
    conteudo_markdown := ""
    partes := []
    observacoes := ""
    status_ia := "processado"
    confianca_ia := 0 }

/-- A sample extraction result holding one act. -/
def sampleResult : PdfResult :=
  { livro_metadata := {}
    atos := [sampleAto]
    processing_stats := { total_atos := 1, processing_time := 0, confidence_avg := 0 } }

/-- The upstream response with an empty `outputs` array. -/
def emptyResp : LFResponse := ⟨[]⟩

/-! ## Proofs: structural sanitization (C5) -/

theorem sanitizedFromArr_cons {v w : JVal} {r r' : JArr} :
    SanitizedFromArr (.cons v r) (.cons w r') ↔
      SanitizedFrom v w ∧ SanitizedFromArr r r' := Iff.rfl

theorem sanitizedFromObj_cons {k k' : String} {v w : JVal} {r r' : JObj} :
    SanitizedFromObj (.cons k v r) (.cons k' w r') ↔
      k = k' ∧ (if isSensitiveKey k then w = redacted else SanitizedFrom v w) ∧
        SanitizedFromObj r r' := Iff.rfl

theorem sanitizedFrom_of_scalar {v w : JVal} (h : v.isContainer = false)
    (he : v = w) : SanitizedFrom v w := by
  cases v <;> simp_all [SanitizedFrom, JVal.isContainer]

mutual

theorem sanitizedFrom_sanitize : ∀ v : JVal, SanitizedFrom v (sanitize_data v)
  | .str s => sanitizedFrom_of_scalar rfl rfl
  | .int n => sanitizedFrom_of_scalar rfl rfl
  | .bool b => sanitizedFrom_of_scalar rfl rfl
  | .null => sanitizedFrom_of_scalar rfl rfl
  | .arr a => sanitizedFromArr_sanitize a
  | .obj o => sanitizedFromObj_sanitize o

theorem sanitizedFromArr_sanitize : ∀ a : JArr, SanitizedFromArr a (sanitize_dataArr a)
  | .nil => trivial
  | .cons v r =>
      sanitizedFromArr_cons.mpr
        ⟨sanitizedFrom_sanitize v, sanitizedFromArr_sanitize r⟩

theorem sanitizedFromObj_sanitize : ∀ o : JObj, SanitizedFromObj o (sanitize_dataObj o)
  | .nil => trivial
  | .cons k v r => by
      by_cases hk : isSensitiveKey k
      · rw [sanitize_dataObj, if_pos hk]
        exact sanitizedFromObj_cons.mpr
          ⟨rfl, by simp [hk], sanitizedFromObj_sanitize r⟩
      · by_cases hc : v.isContainer
        · rw [sanitize_dataObj, if_neg hk, if_pos hc]
          exact sanitizedFromObj_cons.mpr
            ⟨rfl, by simp [hk, sanitizedFrom_sanitize v], sanitizedFromObj_sanitize r⟩
        · rw [sanitize_dataObj, if_neg hk, if_neg hc]
          refine sanitizedFromObj_cons.mpr ⟨rfl, ?_, sanitizedFromObj_sanitize r⟩
          simp only [hk, if_false]
          exact sanitizedFrom_of_scalar (by simpa using hc) rfl

end

/-- C5: For every nested structure of mappings and sequences given to
`_sanitize_data`, every key whose name case-insensitively contains a
sensitive term (password-, token-, key-, secret-, national-id-, card-,
account-family terms), at any nesting depth, has its entire value
replaced by the redaction marker in the output; all other keys are
preserved (same names, same order) and their non-container values are
unchanged. -/
theorem claim_C5_sanitize_data_redacts (v : JVal) :
    SanitizedFrom v (sanitize_data v) :=
  sanitizedFrom_sanitize v

/-! ## Proofs: extraction persistence counts (C1) -/

theorem length_filter_add_length_filter_not {α : Type _} (p : α → Bool)
    (l : List α) :
    (l.filter p).length + (l.filter fun a => !p a).length = l.length := by
  induction l with
  | nil => simp
  | cons a t ih =>
    by_cases h : p a = true <;> simp [List.filter, h, ← ih] <;> omega

/-- C1 (counterexample): an extraction response with one act whose
persistence fails yields zero persisted acts, yet the book's
`total_atos_extraidos` metadata is 1 — not the number of acts actually
persisted (0), refuting the claim that it equals N−M. -/
theorem claim_C1_counterexample :
    (process_langflow_result (fun _ => false) sampleLivro sampleResult "t").2.length = 0 ∧
    ((process_langflow_result (fun _ => false) sampleLivro sampleResult
        "t").1.metadados_processamento.map (·.total_atos_extraidos)) = some 1 ∧
    (1 : Nat) ≠ 0 :=
  ⟨rfl, rfl, by decide⟩

/-- C1 (amended): for an extraction response with N act records of which
M are malformed (their per-act persistence step fails), exactly N−M acts
are persisted — the batch is never aborted by a malformed act — but the
book's `total_atos_extraidos` metadata equals N, the number of act
records in the response, since it is computed before the act loop. -/
theorem claim_C1_extraction_counts (persistOk : ProcessedAto → Bool)
    (livro : Livro) (result : PdfResult) (now : String) :
    (process_langflow_result persistOk livro result now).2 =
      result.atos.filter persistOk ∧
    (process_langflow_result persistOk livro result now).2.length +
      (result.atos.filter fun a => !persistOk a).length = result.atos.length ∧
    ((process_langflow_result persistOk livro result
        now).1.metadados_processamento.map (·.total_atos_extraidos)) =
      some result.atos.length :=
  ⟨rfl, length_filter_add_length_filter_not persistOk result.atos, rfl⟩

/-! ## Proofs: reprocess conflict guard (C2) -/

/-- C2 (counterexample): a book whose stored status is `"processando"`
but which has no stored PDF is answered with `400 Bad Request`, not with
the claimed `409 Conflict` (the stored row is still left unchanged). -/
theorem claim_C2_counterexample :
    (reprocess_pdf (some processingLivroNoPdf) false).1 =
      .error ⟨400, "Livro não possui PDF para reprocessar"⟩ ∧
    (400 : Nat) ≠ 409 ∧
    (reprocess_pdf (some processingLivroNoPdf) false).2 = some processingLivroNoPdf :=
  ⟨rfl, by decide, rfl⟩

/-- C2 (amended): for every book with a stored PDF whose stored status
is `"processando"`, a reprocess request with `force = false` returns the
`409 Conflict` error and stores the row back unchanged; since only the
success branch schedules a background task, no second processing run is
started.  (A `"processando"` book without a stored PDF is instead
rejected with `400`, also unchanged.) -/
theorem claim_C2_reprocess_conflict (livro : Livro)
    (hst : livro.status = "processando")
    (hpdf : (livro.url_pdf_original.getD "").data.isEmpty = false) :
    (reprocess_pdf (some livro) false).1 =
      .error ⟨409,
        "Livro já está sendo processado. Use force=true para forçar reprocessamento"⟩ ∧
    (reprocess_pdf (some livro) false).2 = some livro := by
  unfold reprocess_pdf
  simp [hpdf, hst]

theorem claim_C2_reprocess_conflict_witness :
    processingLivro.status = "processando" ∧
    (processingLivro.url_pdf_original.getD "").data.isEmpty = false ∧
    (reprocess_pdf (some processingLivro) false).1 =
      .error ⟨409,
        "Livro já está sendo processado. Use force=true para forçar reprocessamento"⟩ ∧
    (reprocess_pdf (some processingLivro) false).2 = some processingLivro := by
  have h := claim_C2_reprocess_conflict processingLivro rfl rfl
  exact ⟨rfl, rfl, h.1, h.2⟩

/-! ## Proofs: background-run error handling (C3) -/

theorem string_append_ne_empty (s t : String) (h : s ≠ "") : s ++ t ≠ "" := by
  intro he
  apply h
  have hd := congrArg String.data he
  rw [String.data_append] at hd
  rcases List.append_eq_nil.mp hd with ⟨h1, _⟩
  cases s
  simp_all

theorem update_processing_status_error_recorded (livro : Livro) (st : String)
    (e : String) (he : e ≠ "") :
    (update_processing_status livro st (some e)).metadados_pdf_error = some e ∧
    (update_processing_status livro st (some e)).status_processamento = some st := by
  have hne : e.data.isEmpty = false := by
    cases hl : e.data with
    | nil =>
      refine absurd ?_ he
      cases e with
      | mk d => cases hl; rfl
    | cons a t => rfl
  simp [update_processing_status, hne]

/-- C3: every failure of the asynchronous run that is raised by the AI
call (timeout, upstream unavailable, upstream error, malformed
response) or by the persistence step terminates the run without an
unhandled exception, leaves the book's processing status `"erro"`
(Failed) with a non-empty error message recorded, and finalizes the
ledger entry opened for the run with `"erro"` (Error) status; when the
AI call exceeds the deadline (the client's hard 300 s timeout) the
ledger error message is the timeout-classified
`"Timeout no processamento de IA"`. -/
theorem claim_C3_background_failure (outcome : AIOutcome)
    (persistOk : ProcessedAto → Bool) (persistFails : Bool)
    (persistErrMsg : String) (livro : Livro) (now : String)
    (h : (∀ r, outcome ≠ .ok r) ∨ persistFails = true) :
    (process_pdf_background outcome persistOk persistFails persistErrMsg
        livro now).unhandled = false ∧
    (process_pdf_background outcome persistOk persistFails persistErrMsg
        livro now).livro.status_processamento = some "erro" ∧
    (process_pdf_background outcome persistOk persistFails persistErrMsg
        livro now).livro.metadados_pdf_error ≠ none ∧
    (process_pdf_background outcome persistOk persistFails persistErrMsg
        livro now).log.status = "erro" ∧
    (outcome = .timeout →
      (process_pdf_background outcome persistOk persistFails persistErrMsg
          livro now).log.mensagem_erro = some "Timeout no processamento de IA") ∧
    langflow_timeout = 300 := by
  have hrec : ∀ (l : Livro) (m : String),
      (update_processing_status
        (update_processing_status l "erro" (some ("Erro no processamento de IA: " ++ m)))
        "erro" (some ("Erro no processamento: " ++ m))).metadados_pdf_error =
        some ("Erro no processamento: " ++ m) ∧
      (update_processing_status
        (update_processing_status l "erro" (some ("Erro no processamento de IA: " ++ m)))
        "erro" (some ("Erro no processamento: " ++ m))).status_processamento =
        some "erro" := by
    intro l m
    exact update_processing_status_error_recorded _ _ _
      (string_append_ne_empty _ _ (by decide))
  cases outcome with
  | ok r =>
    rcases h with h | h
    · exact absurd rfl (h r)
    · subst h
      refine ⟨rfl, ?_, ?_, rfl, ?_, rfl⟩
      · exact (hrec livro persistErrMsg).2
      · rw [show (process_pdf_background (.ok r) persistOk true persistErrMsg
            livro now).livro.metadados_pdf_error =
              some ("Erro no processamento: " ++ persistErrMsg) from
            (hrec livro persistErrMsg).1]
        simp
      · intro hc
        exact AIOutcome.noConfusion hc
  | timeout =>
    refine ⟨rfl, (hrec livro _).2, ?_, rfl, ?_, rfl⟩
    · rw [show (process_pdf_background .timeout persistOk persistFails persistErrMsg
          livro now).livro.metadados_pdf_error =
            some ("Erro no processamento: " ++ "Timeout no processamento de IA") from
          (hrec livro _).1]
      simp
    · intro
      rfl
  | unavailable =>
    refine ⟨rfl, (hrec livro _).2, ?_, rfl, ?_, rfl⟩
    · rw [show (process_pdf_background .unavailable persistOk persistFails persistErrMsg
          livro now).livro.metadados_pdf_error =
            some ("Erro no processamento: " ++ "Serviço de IA indisponível") from
          (hrec livro _).1]
      simp
    · intro hc
      exact AIOutcome.noConfusion hc
  | upstreamErr c =>
    refine ⟨rfl, (hrec livro _).2, ?_, rfl, ?_, rfl⟩
    · rw [show (process_pdf_background (.upstreamErr c) persistOk persistFails
          persistErrMsg livro now).livro.metadados_pdf_error =
            some ("Erro no processamento: " ++ ("Erro no serviço de IA: " ++ toString c)) from
          (hrec livro _).1]
      simp
    · intro hc
      exact AIOutcome.noConfusion hc
  | malformed m =>
    refine ⟨rfl, (hrec livro _).2, ?_, rfl, ?_, rfl⟩
    · rw [show (process_pdf_background (.malformed m) persistOk persistFails
          persistErrMsg livro now).livro.metadados_pdf_error =
            some ("Erro no processamento: " ++ ("Erro ao interpretar resposta da IA: " ++ m)) from
          (hrec livro _).1]
      simp
    · intro hc
      exact AIOutcome.noConfusion hc

theorem claim_C3_background_failure_witness :
    ((∀ r, AIOutcome.timeout ≠ .ok r) ∨ false = true) ∧
    (process_pdf_background .timeout (fun _ => true) false "" sampleLivro
        "t").livro.status_processamento = some "erro" ∧
    (process_pdf_background .timeout (fun _ => true) false "" sampleLivro
        "t").log.mensagem_erro = some "Timeout no processamento de IA" := by
  have h := claim_C3_background_failure .timeout (fun _ => true) false ""
    sampleLivro "t" (Or.inl fun r hc => AIOutcome.noConfusion hc)
  exact ⟨Or.inl fun r hc => AIOutcome.noConfusion hc, h.2.1, h.2.2.2.2.1 rfl⟩

/-! ## Proofs: empty `outputs` handling of the adapters (C4) -/

/-- C4 (counterexample): for the semantic-search flow kind, an upstream
response with an empty `outputs` array does NOT fail with a
response-shape error: the adapter returns the defaulted
`{"results": [], "total": 0}` result, refuting the claim that every
flow kind raises. -/
theorem claim_C4_counterexample :
    process_search_response emptyResp =
      .ok { results := [], total := 0, query := none, processing_time := none } ∧
    ∀ e, process_search_response emptyResp ≠ .error e := by
  refine ⟨rfl, fun e hc => ?_⟩
  rw [show process_search_response emptyResp =
    .ok { results := [], total := 0, query := none, processing_time := none } from rfl] at hc
  cases hc

/-- C4 (amended): for the document-ingestion, detail-extraction,
summarization and classification flow kinds, an upstream response whose
`outputs` array is missing or empty fails with the response-shape
`ValueError`; the semantic-search flow kind instead returns the
defaulted empty result `{"results": [], "total": 0}`. -/
theorem claim_C4_outputs_guard (r : LFResponse) (h : r.outputs = []) :
    process_pdf_response r = .error noOutputsMsg ∧
    process_act_details_response r = .error noOutputsMsg ∧
    process_summary_response r = .error noOutputsMsg ∧
    process_classification_response r = .error noOutputsMsg ∧
    process_search_response r =
      .ok { results := [], total := 0, query := none, processing_time := none } := by
  cases r with
  | mk outs => cases h; exact ⟨rfl, rfl, rfl, rfl, rfl⟩

theorem claim_C4_outputs_guard_witness :
    emptyResp.outputs = [] ∧
    process_pdf_response emptyResp = .error noOutputsMsg :=
  ⟨rfl, (claim_C4_outputs_guard emptyResp rfl).1⟩

/-! ## Proofs: prompt cap on the entry-creation path (C7) -/

/-- C7: for every prompt accepted by the Usage Ledger's entry-creation
path (schema validation followed by `create_log`): a prompt longer than
10000 characters is capped by the validator to its first 10000
characters with the truncation marker appended, a prompt of at most
10000 characters passes through untruncated, and `create_log` stores
the (validated) prompt after PII sanitization. -/
theorem claim_C7_prompt_cap (v : String) (h : (pyStrip v).length ≠ 0) :
    (v.length > 10000 → validate_prompt v = .ok (v.take 10000 ++ truncMarker)) ∧
    (v.length ≤ 10000 → validate_prompt v = .ok v) ∧
    (∀ w d, validate_prompt v = .ok w → d.prompt = w →
      (create_log d).prompt = sanitize_prompt w) := by
  refine ⟨fun hl => ?_, fun hl => ?_, fun w d _ hd => ?_⟩
  · rw [validate_prompt, if_neg h, if_pos hl]
  · rw [validate_prompt, if_neg h, if_neg (by omega)]
  · rw [show (create_log d).prompt = sanitize_prompt d.prompt from rfl, hd]

theorem claim_C7_prompt_cap_witness :
    ((pyStrip "abc").length ≠ 0) ∧
    ("abc".length ≤ 10000 → validate_prompt "abc" = .ok "abc") := by
  have h : (pyStrip "abc").length ≠ 0 := by decide
  exact ⟨h, (claim_C7_prompt_cap "abc" h).2.1⟩

/-! ## Proofs: retention sweep (C8) -/

/-- C8: the retention sweep deletes exactly the usage-ledger rows with
`created_at < cutoff` (all of them and no others — the surviving state
is the filter keeping the rest) and the count it returns is the number
of rows with `created_at < cutoff`, which equals the number of rows
actually deleted (`count + |kept| = |state|`). -/
theorem claim_C8_cleanup_exact (now days_to_keep : Int)
    (st : List AiUsageLogRow) :
    (cleanup_old_logs now days_to_keep st).2 =
      st.filter (fun e => !decide (e.created_at < now - days_to_keep)) ∧
    (cleanup_old_logs now days_to_keep st).1 =
      (st.filter fun e => decide (e.created_at < now - days_to_keep)).length ∧
    (cleanup_old_logs now days_to_keep st).1 +
      (cleanup_old_logs now days_to_keep st).2.length = st.length := by
  unfold cleanup_old_logs
  by_cases hp : (st.filter fun e => decide (e.created_at < now - days_to_keep)).length > 0
  · rw [if_pos hp]
    exact ⟨rfl, rfl, length_filter_add_length_filter_not _ st⟩
  · rw [if_neg hp]
    have h0 : (st.filter fun e => decide (e.created_at < now - days_to_keep)) = [] :=
      List.length_eq_zero.mp (by omega)
    have hall := List.filter_eq_nil_iff.mp h0
    have hself : st.filter (fun e => !decide (e.created_at < now - days_to_keep)) = st :=
      List.filter_eq_self.mpr fun a ha => by
        simpa using hall a ha
    refine ⟨hself.symm, rfl, ?_⟩
    rw [h0]
    simp [congrArg List.length hself]

/-! ## Proofs: upload registration (C9) -/

/-- C9 (counterexample): a successful PDF upload for a known book stores
the row with `status = "processando"` — in the specification's
vocabulary the Processing state, not the claimed Uploaded state (only
the acknowledgement dict says `"uploaded"`). -/
theorem claim_C9_counterexample :
    ((upload_and_process_pdf samplePdfFile sampleUpload (some sampleLivro)
        true).map fun o => statusOfCode o.livro.status) = .ok (some .processing) ∧
    some SpecStatus.processing ≠ some SpecStatus.uploaded := by
  constructor
  · rfl
  · intro hc
    cases hc

/-- C9 (amended): for every upload request that passes the PDF file-type
guard, the upload fails with `404 NotFound` when the book id is unknown;
otherwise (after the PDF is stored) the book row is updated with the
object-store reference, the file metadata (original filename, size,
content type, upload timestamp, bucket) and stored status
`"processando"` (Processing — the acknowledgement reports
`"uploaded"`), and the acknowledgement is returned immediately, the
extraction being scheduled as a background task when requested. -/
theorem claim_C9_upload (file : UploadedFile) (up : UploadResult)
    (livro? : Option Livro) (pi : Bool) (h : pdfFileOk file = true) :
    (livro? = none →
      upload_and_process_pdf file up livro? pi = .error ⟨404, "Livro não encontrado"⟩) ∧
    (∀ livro, livro? = some livro →
      upload_and_process_pdf file up livro? pi = .ok
        { livro := { livro with
            url_pdf_original := some up.object_name
            status := "processando"
            metadados_arquivo := some
              { nome_original := up.original_filename
                tamanho_bytes := up.file_size
                tipo_conteudo := up.content_type
                data_upload := up.upload_timestamp
                bucket := up.bucket_name } }
          ack :=
            { livro_id := livro.id
              status := "uploaded"
              processing_started := pi }
          background_scheduled := pi }) := by
  constructor
  · intro hn
    subst hn
    rw [upload_and_process_pdf, h]
    rfl
  · intro livro hl
    subst hl
    rw [upload_and_process_pdf, h]
    rfl

theorem claim_C9_upload_witness :
    pdfFileOk samplePdfFile = true ∧
    upload_and_process_pdf samplePdfFile sampleUpload none true =
      .error ⟨404, "Livro não encontrado"⟩ := by
  have h : pdfFileOk samplePdfFile = true := by decide
  exact ⟨h, (claim_C9_upload samplePdfFile sampleUpload none true h).1 rfl⟩

/-! ## Proofs: prompt sanitization (C6) — parser-level lemmas -/

theorem pcls_inv {cls : Char → Bool} {l : List Char} {res : PRes l}
    (h : pcls cls l = some res) :
    ∃ x rest, l = x :: rest ∧ cls x = true ∧ res.pre = [x] ∧ res.rest = rest := by
  cases l with
  | nil => simp [pcls] at h
  | cons x rest =>
    by_cases hx : cls x = true
    · refine ⟨x, rest, rfl, hx, ?_⟩
      rw [pcls] at h
      simp only [hx, if_true] at h
      cases h
      exact ⟨rfl, rfl⟩
    · rw [pcls] at h
      simp [hx] at h

theorem pcls_none {cls : Char → Bool} {x : Char} {t : List Char}
    (hx : cls x = false) : pcls cls (x :: t) = none := by
  rw [pcls]
  simp [hx]

theorem pcls_some {cls : Char → Bool} {x : Char} (t : List Char)
    (hx : cls x = true) : pcls cls (x :: t) = some ⟨[x], t, rfl⟩ := by
  rw [pcls]
  simp [hx]

theorem pseq_inv {p q : ∀ l : List Char, Option (PRes l)} {l : List Char}
    {res : PRes l} (h : pseq p q l = some res) :
    ∃ (r1 : PRes l) (r2 : PRes r1.rest), p l = some r1 ∧ q r1.rest = some r2 ∧
      res.pre = r1.pre ++ r2.pre ∧ res.rest = r2.rest := by
  unfold pseq at h
  split at h
  · cases h
  · rename_i r1 heq1
    split at h
    · cases h
    · rename_i r2 heq2
      cases h
      exact ⟨_, _, heq1, heq2, rfl, rfl⟩

theorem pseq_some {p q : ∀ l : List Char, Option (PRes l)} {l : List Char}
    {r1 : PRes l} {r2 : PRes r1.rest} (h1 : p l = some r1)
    (h2 : q r1.rest = some r2) :
    ∃ h, pseq p q l = some ⟨r1.pre ++ r2.pre, r2.rest, h⟩ := by
  obtain ⟨a, r, hr⟩ := r1
  obtain ⟨b, r2l, hr2⟩ := r2
  dsimp only at hr2 h2 ⊢
  refine ⟨by rw [hr, hr2]; exact (List.append_assoc a b r2l).symm, ?_⟩
  simp only [pseq, h1, h2]

theorem popt_inv {p : ∀ l : List Char, Option (PRes l)} {l : List Char}
    {res : PRes l} (h : popt p l = some res) :
    (∃ r1 : PRes l, p l = some r1 ∧ res.pre = r1.pre ∧ res.rest = r1.rest) ∨
      (p l = none ∧ res.pre = [] ∧ res.rest = l) := by
  unfold popt at h
  split at h
  · rename_i r1 heq1
    cases h
    exact Or.inl ⟨_, heq1, rfl, rfl⟩
  · rename_i heq1
    cases h
    exact Or.inr ⟨heq1, rfl, rfl⟩

theorem palt_inv {p q : ∀ l : List Char, Option (PRes l)} {l : List Char}
    {res : PRes l} (h : palt p q l = some res) :
    p l = some res ∨ (p l = none ∧ q l = some res) := by
  unfold palt at h
  split at h
  · rename_i r1 heq1
    cases h
    exact Or.inl heq1
  · rename_i heq1
    exact Or.inr ⟨heq1, h⟩

theorem charset_pcls {cls σ : Char → Bool} (hσ : ∀ c, cls c = true → σ c = true) :
    PCharset σ (pcls cls) := by
  intro l res h c hc
  obtain ⟨x, rest, _, hx, hpre, _⟩ := pcls_inv h
  rw [hpre] at hc
  simp only [List.mem_singleton] at hc
  exact hc ▸ hσ x hx

theorem charset_pseq {σ : Char → Bool}
    {p q : ∀ l : List Char, Option (PRes l)} (hp : PCharset σ p)
    (hq : PCharset σ q) : PCharset σ (pseq p q) := by
  intro l res h c hc
  obtain ⟨r1, r2, h1, h2, hpre, _⟩ := pseq_inv h
  rw [hpre] at hc
  rcases List.mem_append.mp hc with hc | hc
  · exact hp _ _ h1 c hc
  · exact hq _ _ h2 c hc

theorem charset_popt {σ : Char → Bool} {p : ∀ l : List Char, Option (PRes l)}
    (hp : PCharset σ p) : PCharset σ (popt p) := by
  intro l res h c hc
  rcases popt_inv h with ⟨r1, h1, hpre, _⟩ | ⟨_, hpre, _⟩
  · exact hp _ _ h1 c (hpre ▸ hc)
  · rw [hpre] at hc
    cases hc

theorem charset_palt {σ : Char → Bool}
    {p q : ∀ l : List Char, Option (PRes l)} (hp : PCharset σ p)
    (hq : PCharset σ q) : PCharset σ (palt p q) := by
  intro l res h c hc
  rcases palt_inv h with h1 | ⟨_, h1⟩
  · exact hp _ _ h1 c hc
  · exact hq _ _ h1 c hc

theorem charset_pdigits {σ : Char → Bool}
    (hσ : ∀ c, c.isDigit = true → σ c = true) :
    ∀ n, PCharset σ (pdigits n) := by
  intro n
  induction n with
  | zero =>
    intro l res h c hc
    rw [pdigits] at h
    cases h
    cases hc
  | succ n ih =>
    rw [pdigits]
    exact charset_pseq (charset_pcls hσ) ih

theorem minone_pcls {cls : Char → Bool} : PMinOne (pcls cls) := by
  intro l res h
  obtain ⟨x, rest, _, _, hpre, _⟩ := pcls_inv h
  rw [hpre]
  simp

theorem minone_pseq_left {p q : ∀ l : List Char, Option (PRes l)}
    (hp : PMinOne p) : PMinOne (pseq p q) := by
  intro l res h
  obtain ⟨r1, r2, h1, _, hpre, _⟩ := pseq_inv h
  rw [hpre]
  simp [hp _ _ h1]

theorem minone_pseq_right {p q : ∀ l : List Char, Option (PRes l)}
    (hq : PMinOne q) : PMinOne (pseq p q) := by
  intro l res h
  obtain ⟨r1, r2, _, h2, hpre, _⟩ := pseq_inv h
  rw [hpre]
  simp [hq _ _ h2]

theorem minone_palt {p q : ∀ l : List Char, Option (PRes l)}
    (hp : PMinOne p) (hq : PMinOne q) : PMinOne (palt p q) := by
  intro l res h
  rcases palt_inv h with h1 | ⟨_, h1⟩
  · exact hp _ _ h1
  · exact hq _ _ h1

theorem minone_pdigits {n : Nat} : PMinOne (pdigits (n + 1)) := by
  rw [pdigits]
  exact minone_pseq_left minone_pcls

theorem headdigit_pdigits {n : Nat} : PHeadDigit (pdigits (n + 1)) := by
  intro l res h
  rw [pdigits] at h
  obtain ⟨r1, r2, h1, _, hpre, _⟩ := pseq_inv h
  obtain ⟨x, rest, _, hx, hp1, _⟩ := pcls_inv h1
  rw [hpre, hp1]
  simpa using hx

theorem headdigit_pseq {p q : ∀ l : List Char, Option (PRes l)}
    (hp : PHeadDigit p) (hm : PMinOne p) : PHeadDigit (pseq p q) := by
  intro l res h
  obtain ⟨r1, r2, h1, _, hpre, _⟩ := pseq_inv h
  rw [hpre]
  cases hp1 : r1.pre with
  | nil => exact absurd hp1 (hm _ _ h1)
  | cons a t =>
    have := hp _ _ h1
    rw [hp1] at this
    simpa using this

theorem headdigit_palt {p q : ∀ l : List Char, Option (PRes l)}
    (hp : PHeadDigit p) (hq : PHeadDigit q) : PHeadDigit (palt p q) := by
  intro l res h
  rcases palt_inv h with h1 | ⟨_, h1⟩
  · exact hp _ _ h1
  · exact hq _ _ h1

theorem parse_congr {p : ∀ l : List Char, Option (PRes l)} {l l' : List Char}
    {res : PRes l} (h : p l = some res) (hl : l = l') :
    ∃ h2 : l' = res.pre ++ res.rest, p l' = some ⟨res.pre, res.rest, h2⟩ := by
  subst hl
  exact ⟨res.heq, h⟩

theorem parse_congr_none {p : ∀ l : List Char, Option (PRes l)}
    {l l' : List Char} (h : p l = none) (hl : l = l') : p l' = none := by
  subst hl
  exact h

theorem pcls_none_inv {cls : Char → Bool} {y : Char} {t : List Char}
    (h : pcls cls (y :: t) = none) : cls y = false := by
  by_cases hy : cls y = true
  · rw [pcls_some t hy] at h
    cases h
  · simpa using hy

theorem popt_of_some {p : ∀ l : List Char, Option (PRes l)} {l : List Char}
    {r1 : PRes l} (h : p l = some r1) : popt p l = some r1 := by
  unfold popt
  rw [h]

theorem popt_of_none {p : ∀ l : List Char, Option (PRes l)} {l : List Char}
    (h : p l = none) : popt p l = some ⟨[], l, rfl⟩ := by
  unfold popt
  rw [h]

theorem palt_of_left {p q : ∀ l : List Char, Option (PRes l)} {l : List Char}
    {r1 : PRes l} (h : p l = some r1) : palt p q l = some r1 := by
  unfold palt
  rw [h]

theorem palt_of_right {p q : ∀ l : List Char, Option (PRes l)} {l : List Char}
    (h : p l = none) : palt p q l = q l := by
  unfold palt
  rw [h]

theorem ts_pcls {cls : Char → Bool} : PTailStable (pcls cls) := by
  intro l res r' h
  obtain ⟨x, rest, hl, hx, hpre, hrest⟩ := pcls_inv h
  rw [hpre]
  exact ⟨rfl, pcls_some r' hx⟩

theorem ts_pseq {p q : ∀ l : List Char, Option (PRes l)} (hp : PTailStable p)
    (hq : PTailStable q) : PTailStable (pseq p q) := by
  intro l res r' h
  obtain ⟨r1, r2, h1, h2, hpre, hrest⟩ := pseq_inv h
  obtain ⟨ha, hp'⟩ := hp _ _ (r2.pre ++ r') h1
  obtain ⟨ha2, hp''⟩ := parse_congr hp'
    (show r1.pre ++ (r2.pre ++ r') = (r1.pre ++ r2.pre) ++ r' from
      (List.append_assoc _ _ _).symm)
  obtain ⟨hb, hq'⟩ := hq _ _ r' h2
  obtain ⟨hc, hfin⟩ := pseq_some hp'' hq'
  rw [hpre]
  exact ⟨hc, hfin⟩

theorem ts_pdigits : ∀ n, PTailStable (pdigits n) := by
  intro n
  induction n with
  | zero =>
    intro l res r' h
    rw [pdigits] at h
    cases h
    exact ⟨rfl, by rw [pdigits]; rfl⟩
  | succ n ih =>
    rw [pdigits]
    exact ts_pseq ts_pcls ih

theorem ts_optseq {cls : Char → Bool} {q : ∀ l : List Char, Option (PRes l)}
    (hq : PTailStable q) (hmq : PMinOne q) :
    PTailStable (pseq (popt (pcls cls)) q) := by
  intro l res r' h
  obtain ⟨r1, r2, h1, h2, hpre, hrest⟩ := pseq_inv h
  obtain ⟨hb, hq'⟩ := hq _ _ r' h2
  rcases popt_inv h1 with ⟨rc, hc, hcpre, hcrest⟩ | ⟨hnone, hcpre, hcrest⟩
  · -- the optional element consumed one class character
    obtain ⟨x, rest, hxl, hx, hxpre, hxrest⟩ := pcls_inv hc
    have hr1rest : r1.rest = r2.pre ++ r2.rest := r2.heq
    have hopt : popt (pcls cls) (x :: (r2.pre ++ r')) =
        some ⟨[x], r2.pre ++ r', rfl⟩ :=
      popt_of_some (pcls_some _ hx)
    obtain ⟨hd, hfin⟩ := pseq_some hopt hq'
    rw [hpre, hcpre, hxpre]
    exact ⟨hd, hfin⟩
  · -- the optional element matched the empty string
    cases hr2 : r2.pre with
    | nil => exact absurd hr2 (hmq _ _ h2)
    | cons y t =>
      have hyl : r1.rest = y :: (t ++ r2.rest) := r2.heq.trans (by rw [hr2]; rfl)
      have hll : l = y :: (t ++ r2.rest) := hcrest.symm.trans hyl
      have hyfail : cls y = false :=
        pcls_none_inv (parse_congr_none hnone hll)
      have hopt : popt (pcls cls) (y :: (t ++ r')) =
          some ⟨[], y :: (t ++ r'), rfl⟩ :=
        popt_of_none (pcls_none hyfail)
      have hll2 : r2.pre ++ r' = y :: (t ++ r') := by rw [hr2]; rfl
      obtain ⟨he, hq''⟩ := parse_congr hq' hll2
      obtain ⟨hd, hfin⟩ := pseq_some hopt hq''
      obtain ⟨hf, hfin2⟩ := parse_congr hfin hll2.symm
      rw [hpre, hcpre]
      exact ⟨hf, hfin2⟩

theorem pseq_none_left {p q : ∀ l : List Char, Option (PRes l)} {l : List Char}
    (h : p l = none) : pseq p q l = none := by
  unfold pseq
  rw [h]

theorem pseq_none_right {p q : ∀ l : List Char, Option (PRes l)} {l : List Char}
    {r1 : PRes l} (h1 : p l = some r1) (h2 : q r1.rest = none) :
    pseq p q l = none := by
  obtain ⟨a, r, hr⟩ := r1
  dsimp only at h2
  simp only [pseq, h1, h2]

theorem isDigit_dot : ('.' : Char).isDigit = false := by decide

theorem rg_p1_fails (c : Char) (X : List Char) :
    pseq (pdigits 2) rgTail (c :: '.' :: X) = none := by
  apply pseq_none_left
  by_cases hc : c.isDigit = true
  · rw [pdigits]
    apply pseq_none_right (pcls_some _ hc)
    dsimp only
    rw [pdigits]
    exact pseq_none_left (pcls_none isDigit_dot)
  · rw [pdigits]
    exact pseq_none_left (pcls_none (by simpa using hc))

theorem ts_pchar {c : Char} : PTailStable (pchar c) := ts_pcls

theorem ts_rgTail : PTailStable rgTail :=
  ts_pseq ts_pchar <| ts_pseq (ts_pdigits 3) <| ts_pseq ts_pchar <|
    ts_pseq (ts_pdigits 3) <| ts_pseq ts_pchar (ts_pdigits 1)

theorem rgTail_head {l : List Char} {res : PRes l} (h : rgTail l = some res) :
    ∃ z, res.pre = '.' :: z := by
  rw [rgTail] at h
  obtain ⟨r1, r2, h1, h2, hpre, _⟩ := pseq_inv h
  obtain ⟨x, rest, _, hx, hp1, _⟩ := pcls_inv h1
  have hx' : x = '.' := by simpa using hx
  subst hx'
  exact ⟨r2.pre, by rw [hpre, hp1]; rfl⟩

theorem pdigits_one_pre {l : List Char} {res : PRes l}
    (h : pdigits 1 l = some res) : ∃ c, c.isDigit = true ∧ res.pre = [c] := by
  rw [pdigits] at h
  obtain ⟨r1, r2, h1, h2, hpre, _⟩ := pseq_inv h
  obtain ⟨x, rest, _, hx, hp1, _⟩ := pcls_inv h1
  rw [pdigits] at h2
  cases h2
  exact ⟨x, hx, by rw [hpre, hp1]; rfl⟩

theorem ts_rgP :
    PTailStable (palt (pseq (pdigits 2) rgTail) (pseq (pdigits 1) rgTail)) := by
  intro l res r' h
  have ts1 : PTailStable (pseq (pdigits 2) rgTail) := ts_pseq (ts_pdigits 2) ts_rgTail
  have ts2 : PTailStable (pseq (pdigits 1) rgTail) := ts_pseq (ts_pdigits 1) ts_rgTail
  rcases palt_inv h with h1 | ⟨hno, h1⟩
  · obtain ⟨ha, hp⟩ := ts1 _ _ r' h1
    exact ⟨ha, palt_of_left hp⟩
  · obtain ⟨ha, hp⟩ := ts2 _ _ r' h1
    obtain ⟨r1, r2, hh1, hh2, hpre, _⟩ := pseq_inv h1
    obtain ⟨c1, hc1, hp1⟩ := pdigits_one_pre hh1
    obtain ⟨z, hp2⟩ := rgTail_head hh2
    have hshape : res.pre = c1 :: '.' :: z := by
      rw [hpre, hp1, hp2]
      rfl
    have hfail : pseq (pdigits 2) rgTail (res.pre ++ r') = none := by
      apply parse_congr_none (rg_p1_fails c1 (z ++ r'))
      rw [hshape]
      rfl
    refine ⟨ha, ?_⟩
    rw [palt_of_right hfail]
    exact hp

theorem mk_inv {p : ∀ l : List Char, Option (PRes l)} {prev : Bool}
    {l : List Char} {res : MRes l} (h : mkMatcher p prev l = some res) :
    ∃ (r1 : PRes l) (c : Char) (cs : List Char), p l = some r1 ∧ r1.pre = c :: cs ∧
      bdryB prev c = true ∧ bdryA (c :: cs) r1.rest = true ∧
      res.pre = r1.pre ∧ res.rest = r1.rest := by
  unfold mkMatcher at h
  split at h
  · rename_i c cs rest hh heq1
    split at h
    · rename_i hb
      cases h
      rw [Bool.and_eq_true] at hb
      exact ⟨⟨c :: cs, rest, hh⟩, c, cs, heq1, rfl, hb.1, hb.2, rfl, rfl⟩
    · cases h
  · cases h

theorem mk_some {p : ∀ l : List Char, Option (PRes l)} {prev : Bool}
    {l : List Char} {r1 : PRes l} {c : Char} {cs : List Char}
    (h1 : p l = some r1) (hpre : r1.pre = c :: cs)
    (hb : (bdryB prev c && bdryA (c :: cs) r1.rest) = true) :
    (mkMatcher p prev l).isSome = true := by
  obtain ⟨a, r, hr⟩ := r1
  dsimp only at hpre hb
  subst hpre
  simp only [mkMatcher, h1, hb, if_true]
  rfl

theorem noBr_of_digit : ∀ c : Char, c.isDigit = true → noBr c = true := by
  intro c h
  by_cases h1 : c = '['
  · subst h1
    exact absurd h (by decide)
  · by_cases h2 : c = ']'
    · subst h2
      exact absurd h (by decide)
    · simp [noBr, h1, h2]

theorem noBr_of_pchar {c0 : Char} (hc0 : noBr c0 = true) :
    ∀ c : Char, (c == c0) = true → noBr c = true := by
  intro c h
  rwa [show c = c0 from by simpa using h]

theorem noBr_of_space : ∀ c : Char, isPySpace c = true → noBr c = true := by
  intro c h
  rw [isPySpace] at h
  simp only [Bool.or_eq_true, beq_iff_eq] at h
  rcases h with ((((h | h) | h) | h) | h) | h <;> subst h <;> decide

theorem mok_mk {p : ∀ l : List Char, Option (PRes l)} (hcs : PCharset noBr p)
    (hhd : PHeadDigit p) (hts : PTailStable p) : MOK (mkMatcher p) := by
  constructor
  · intro prev l res h hmem
    obtain ⟨r1, c, cs, h1, hpre, _, _, hrpre, _⟩ := mk_inv h
    have := hcs _ _ h1 '[' (hrpre ▸ hmem)
    exact absurd this (by decide)
  · intro prev l res h hmem
    obtain ⟨r1, c, cs, h1, hpre, _, _, hrpre, _⟩ := mk_inv h
    have := hcs _ _ h1 ']' (hrpre ▸ hmem)
    exact absurd this (by decide)
  · intro prev l res h
    obtain ⟨r1, c, cs, h1, hpre, _, _, hrpre, _⟩ := mk_inv h
    refine ⟨c, ?_, Or.inl ?_⟩
    · rw [hrpre, hpre]
      exact List.mem_cons_self c cs
    · have := hhd _ _ h1
      rw [hpre] at this
      simpa using this
  · intro prev l res h
    obtain ⟨r1, c, cs, h1, hpre, hbb, _, hrpre, _⟩ := mk_inv h
    rw [hrpre, hpre]
    simpa using hbb
  · intro prev l res h
    obtain ⟨r1, c, cs, h1, hpre, _, hba, hrpre, hrrest⟩ := mk_inv h
    rw [hrpre, hpre, hrrest]
    exact hba
  · intro prev a r r' res h hpre hw
    obtain ⟨r1, c, cs, h1, hp1, hbb, hba, hrpre, hrrest⟩ := mk_inv h
    have hra : r1.pre = a := hrpre.symm.trans hpre
    have hrest : r1.rest = r := by
      have h2 := r1.heq
      rw [hra] at h2
      exact (List.append_cancel_left h2).symm
    obtain ⟨ha, hp'⟩ := hts _ _ r' h1
    rw [← hra]
    apply mk_some hp'
    · dsimp only
      exact hp1
    · dsimp only
      rw [Bool.and_eq_true]
      refine ⟨hbb, ?_⟩
      rw [bdryA] at hba ⊢
      rw [hw, ← hrest]
      exact hba

theorem noBr_dot : noBr '.' = true := by decide

theorem noBr_dash : noBr '-' = true := by decide

theorem noBr_slash : noBr '/' = true := by decide

theorem charset_rgTail : PCharset noBr rgTail :=
  charset_pseq (charset_pcls (noBr_of_pchar noBr_dot)) <|
    charset_pseq (charset_pdigits noBr_of_digit 3) <|
      charset_pseq (charset_pcls (noBr_of_pchar noBr_dot)) <|
        charset_pseq (charset_pdigits noBr_of_digit 3) <|
          charset_pseq (charset_pcls (noBr_of_pchar noBr_dash))
            (charset_pdigits noBr_of_digit 1)

theorem mok_cpfM : MOK cpfM :=
  mok_mk
    (charset_pseq (charset_pdigits noBr_of_digit 3) <|
      charset_pseq (charset_pcls (noBr_of_pchar noBr_dot)) <|
        charset_pseq (charset_pdigits noBr_of_digit 3) <|
          charset_pseq (charset_pcls (noBr_of_pchar noBr_dot)) <|
            charset_pseq (charset_pdigits noBr_of_digit 3) <|
              charset_pseq (charset_pcls (noBr_of_pchar noBr_dash))
                (charset_pdigits noBr_of_digit 2))
    (headdigit_pseq headdigit_pdigits minone_pdigits)
    (ts_pseq (ts_pdigits 3) <| ts_pseq ts_pchar <| ts_pseq (ts_pdigits 3) <|
      ts_pseq ts_pchar <| ts_pseq (ts_pdigits 3) <|
        ts_pseq ts_pchar (ts_pdigits 2))

theorem mok_cnpjM : MOK cnpjM :=
  mok_mk
    (charset_pseq (charset_pdigits noBr_of_digit 2) <|
      charset_pseq (charset_pcls (noBr_of_pchar noBr_dot)) <|
        charset_pseq (charset_pdigits noBr_of_digit 3) <|
          charset_pseq (charset_pcls (noBr_of_pchar noBr_dot)) <|
            charset_pseq (charset_pdigits noBr_of_digit 3) <|
              charset_pseq (charset_pcls (noBr_of_pchar noBr_slash)) <|
                charset_pseq (charset_pdigits noBr_of_digit 4) <|
                  charset_pseq (charset_pcls (noBr_of_pchar noBr_dash))
                    (charset_pdigits noBr_of_digit 2))
    (headdigit_pseq headdigit_pdigits minone_pdigits)
    (ts_pseq (ts_pdigits 2) <| ts_pseq ts_pchar <| ts_pseq (ts_pdigits 3) <|
      ts_pseq ts_pchar <| ts_pseq (ts_pdigits 3) <| ts_pseq ts_pchar <|
        ts_pseq (ts_pdigits 4) <| ts_pseq ts_pchar (ts_pdigits 2))

theorem mok_rgM : MOK rgM :=
  mok_mk
    (charset_palt
      (charset_pseq (charset_pdigits noBr_of_digit 2) charset_rgTail)
      (charset_pseq (charset_pdigits noBr_of_digit 1) charset_rgTail))
    (headdigit_palt
      (headdigit_pseq headdigit_pdigits minone_pdigits)
      (headdigit_pseq headdigit_pdigits minone_pdigits))
    ts_rgP

theorem mok_cardM : MOK cardM :=
  mok_mk
    (charset_pseq (charset_pdigits noBr_of_digit 4) <|
      charset_pseq (charset_popt (charset_pcls noBr_of_space)) <|
        charset_pseq (charset_pdigits noBr_of_digit 4) <|
          charset_pseq (charset_popt (charset_pcls noBr_of_space)) <|
            charset_pseq (charset_pdigits noBr_of_digit 4) <|
              charset_pseq (charset_popt (charset_pcls noBr_of_space))
                (charset_pdigits noBr_of_digit 4))
    (headdigit_pseq headdigit_pdigits minone_pdigits)
    (ts_pseq (ts_pdigits 4) <|
      ts_optseq
        (ts_pseq (ts_pdigits 4) <|
          ts_optseq
            (ts_pseq (ts_pdigits 4) <| ts_optseq (ts_pdigits 4) minone_pdigits)
            (minone_pseq_left minone_pdigits))
        (minone_pseq_left minone_pdigits))

theorem mok_cepM : MOK cepM :=
  mok_mk
    (charset_pseq (charset_pdigits noBr_of_digit 5) <|
      charset_pseq (charset_popt (charset_pcls (noBr_of_pchar noBr_dash)))
        (charset_pdigits noBr_of_digit 3))
    (headdigit_pseq headdigit_pdigits minone_pdigits)
    (ts_pseq (ts_pdigits 5) (ts_optseq (ts_pdigits 3) minone_pdigits))

theorem firstSome_eq_some {α β : Type _} {f : α → Option β} :
    ∀ {as : List α} {b : β}, firstSome f as = some b → ∃ a ∈ as, f a = some b := by
  intro as
  induction as with
  | nil => intro b h; cases h
  | cons x t ih =>
    intro b h
    rw [firstSome] at h
    cases hfx : f x with
    | some c =>
      rw [hfx] at h
      cases h
      exact ⟨x, List.mem_cons_self x t, hfx⟩
    | none =>
      rw [hfx] at h
      obtain ⟨a, ha, hfa⟩ := ih h
      exact ⟨a, List.mem_cons_of_mem x ha, hfa⟩

theorem firstSome_isSome {α β : Type _} {f : α → Option β} {as : List α}
    {a : α} (ha : a ∈ as) (hf : (f a).isSome = true) :
    (firstSome f as).isSome = true := by
  induction as with
  | nil => cases ha
  | cons x t ih =>
    rw [firstSome]
    cases hfx : f x with
    | some c => rfl
    | none =>
      rcases List.mem_cons.mp ha with rfl | ha2
      · rw [hfx] at hf
        cases hf
      · exact ih ha2

theorem prun_all {cls : Char → Bool} : ∀ l : List Char,
    ((prun cls l).pre.all cls) = true := by
  intro l
  induction l with
  | nil => rfl
  | cons c cs ih =>
    rw [prun]
    by_cases hc : cls c = true
    · simp [hc, ih]
    · simp [hc]

theorem prun_append {cls : Char → Bool} {x : List Char} {y : Char}
    {z : List Char} (hx : x.all cls = true) (hy : cls y = false) :
    (prun cls (x ++ y :: z)).pre = x ∧ (prun cls (x ++ y :: z)).rest = y :: z := by
  induction x with
  | nil =>
    rw [show ([] : List Char) ++ y :: z = y :: z from rfl, prun]
    simp [hy]
  | cons a t ih =>
    rw [List.all_cons, Bool.and_eq_true] at hx
    rw [show (a :: t) ++ y :: z = a :: (t ++ y :: z) from rfl, prun]
    simp only [hx.1, if_true]
    exact ⟨by rw [(ih hx.2).1], (ih hx.2).2⟩

theorem emailTld_inv {l : List Char} {res : PRes l} (h : emailTld l = some res) :
    ∃ t, 2 ≤ t ∧ (l.take t).length = t ∧ (l.take t).all tldCls = true ∧
      bdryA (l.take t) (l.drop t) = true ∧
      res.pre = l.take t ∧ res.rest = l.drop t := by
  unfold emailTld at h
  obtain ⟨t, _, hft⟩ := firstSome_eq_some h
  split at hft
  · rename_i hc
    cases hft
    exact ⟨t, hc.1, hc.2.1, hc.2.2.1, hc.2.2.2, rfl, rfl⟩
  · cases hft

theorem emailTld_some {tld r' : List Char} (h2 : 2 ≤ tld.length)
    (hall : tld.all tldCls = true) (hb : bdryA tld r' = true) :
    (emailTld (tld ++ r')).isSome = true := by
  unfold emailTld
  apply firstSome_isSome (a := tld.length)
  · rw [List.mem_reverse, List.mem_range, List.length_append]
    omega
  · split
    · rfl
    · rename_i hcond
      refine absurd ⟨h2, ?_, ?_, ?_⟩ hcond
      · rw [List.take_left]
      · rw [List.take_left]; exact hall
      · rw [List.take_left, List.drop_left]; exact hb

theorem emailDomTail_inv {l : List Char} {res : PRes l}
    (h : emailDomTail l = some res) :
    ∃ (k : Nat) (r3 : List Char) (t : PRes r3), 1 ≤ k ∧ (l.take k).length = k ∧
      (l.take k).all domCls = true ∧ l.drop k = '.' :: r3 ∧
      emailTld r3 = some t ∧
      res.pre = l.take k ++ '.' :: t.pre ∧ res.rest = t.rest := by
  unfold emailDomTail at h
  obtain ⟨k, _, hfk⟩ := firstSome_eq_some h
  split at hfk
  · rename_i hc
    split at hfk
    · rename_i r3 hdrop
      rw [Option.map_eq_some'] at hfk
      obtain ⟨t, ht, hmap⟩ := hfk
      cases hmap
      exact ⟨k, r3, t, hc.1, hc.2.1, hc.2.2, hdrop, ht, rfl, rfl⟩
    · cases hfk
  · cases hfk

theorem emailDomTail_some {dom tld r' : List Char} (hdn : dom ≠ [])
    (hdall : dom.all domCls = true) (h2 : 2 ≤ tld.length)
    (htall : tld.all tldCls = true) (hb : bdryA tld r' = true) :
    (emailDomTail (dom ++ '.' :: (tld ++ r'))).isSome = true := by
  unfold emailDomTail
  apply firstSome_isSome (a := dom.length)
  · rw [List.mem_reverse, List.mem_range, List.length_append]
    omega
  · split
    · split
      · rename_i r3 hdrop
        rw [List.drop_left] at hdrop
        cases hdrop
        rw [Option.isSome_map']
        exact emailTld_some h2 htall hb
      · rename_i hne
        exact absurd (List.drop_left dom ('.' :: (tld ++ r'))) (hne (tld ++ r'))
    · rename_i hcond
      refine absurd ⟨?_, ?_, ?_⟩ hcond
      · have : dom.length ≠ 0 := by simpa using hdn
        omega
      · rw [List.take_left]
      · rw [List.take_left]; exact hdall

theorem emailM_inv {prev : Bool} {l : List Char} {res : MRes l}
    (h : emailM prev l = some res) :
    ∃ (r2 : List Char) (t : PRes r2),
      (prun localCls l).pre ≠ [] ∧
      (prun localCls l).rest = '@' :: r2 ∧
      bdryB prev ((prun localCls l).pre.headD '~') = true ∧
      emailDomTail r2 = some t ∧
      res.pre = (prun localCls l).pre ++ '@' :: t.pre ∧
      res.rest = t.rest := by
  simp only [emailM] at h
  split at h
  · cases h
  · rename_i c cs hpre
    split at h
    · rename_i hbc
      split at h
      · rename_i r2 hrest
        rw [Option.map_eq_some'] at h
        obtain ⟨t, ht, hmap⟩ := h
        cases hmap
        refine ⟨r2, t, ?_, hrest, ?_, ht, ?_, rfl⟩
        · rw [hpre]
          simp
        · rw [hpre]
          simpa using hbc
        · dsimp only
          rw [hpre]
      · cases h
    · cases h

theorem matcher_isSome_congr {m : Matcher} {prev : Bool} {l l' : List Char}
    (h : (m prev l).isSome = true) (hl : l = l') : (m prev l').isSome = true := by
  subst hl
  exact h

theorem emailM_some (prev : Bool) {loc dom tld r' : List Char}
    (hln : loc ≠ []) (hlall : loc.all localCls = true)
    (hbb : bdryB prev (loc.headD '~') = true)
    (hdn : dom ≠ []) (hdall : dom.all domCls = true)
    (h2 : 2 ≤ tld.length) (htall : tld.all tldCls = true)
    (hb : bdryA tld r' = true) :
    (emailM prev (loc ++ '@' :: (dom ++ '.' :: (tld ++ r')))).isSome = true := by
  have hpr := prun_append (z := dom ++ '.' :: (tld ++ r')) hlall
    (show localCls '@' = false by decide)
  simp only [emailM]
  split
  · rename_i hpre
    exact absurd (hpr.1.symm.trans hpre) hln
  · rename_i c cs hpre
    have hlc : loc = c :: cs := hpr.1.symm.trans hpre
    have hbc : bdryB prev c = true := by
      rw [hlc] at hbb
      simpa using hbb
    rw [hbc]
    simp only [if_true]
    split
    · rename_i r2 hrest
      have hr2 : r2 = dom ++ '.' :: (tld ++ r') := by
        have h3 := hpr.2.symm.trans hrest
        rw [List.cons.injEq] at h3
        exact h3.2.symm
      rw [Option.isSome_map', hr2]
      exact emailDomTail_some hdn hdall h2 htall hb
    · rename_i hne
      exact absurd hpr.2 (by intro hcontra; exact hne _ hcontra)

theorem noBr_of_local : ∀ c : Char, localCls c = true → noBr c = true := by
  intro c h
  by_cases h1 : c = '['
  · subst h1
    exact absurd h (by decide)
  · by_cases h2 : c = ']'
    · subst h2
      exact absurd h (by decide)
    · simp [noBr, h1, h2]

theorem noBr_of_dom : ∀ c : Char, domCls c = true → noBr c = true := by
  intro c h
  by_cases h1 : c = '['
  · subst h1
    exact absurd h (by decide)
  · by_cases h2 : c = ']'
    · subst h2
      exact absurd h (by decide)
    · simp [noBr, h1, h2]

theorem noBr_of_tld : ∀ c : Char, tldCls c = true → noBr c = true := by
  intro c h
  by_cases h1 : c = '['
  · subst h1
    exact absurd h (by decide)
  · by_cases h2 : c = ']'
    · subst h2
      exact absurd h (by decide)
    · simp [noBr, h1, h2]

theorem headD_append {a b : List Char} {d : Char} (ha : a ≠ []) :
    (a ++ b).headD d = a.headD d := by
  cases a with
  | nil => exact absurd rfl ha
  | cons x t => rfl

theorem getLastD_nonempty {b : List Char} (hb : b ≠ []) (d d' : Char) :
    b.getLastD d = b.getLastD d' := by
  cases b with
  | nil => exact absurd rfl hb
  | cons y ys => rw [List.getLastD_cons, List.getLastD_cons]

theorem getLastD_append {b : List Char} (hb : b ≠ []) :
    ∀ (a : List Char) (d : Char), (a ++ b).getLastD d = b.getLastD d := by
  intro a
  induction a with
  | nil => intro d; rfl
  | cons x t ih =>
    intro d
    rw [List.cons_append, List.getLastD_cons, ih x]
    exact getLastD_nonempty hb x d

theorem lastW_append {a b : List Char} (hb : b ≠ []) :
    lastW (a ++ b) = lastW b := by
  rw [lastW, lastW, getLastD_append hb]

theorem emailM_pre_chars {prev : Bool} {l : List Char} {res : MRes l}
    (h : emailM prev l = some res) : ∀ c ∈ res.pre, noBr c = true := by
  obtain ⟨r2, t, hln, hrest, hbb, hdt, hpre, hrrest⟩ := emailM_inv h
  obtain ⟨k, r3, tt, hk1, hklen, hkall, hdrop, htld, htpre, htrest⟩ :=
    emailDomTail_inv hdt
  obtain ⟨t0, ht02, ht0len, ht0all, ht0b, ht0pre, ht0rest⟩ := emailTld_inv htld
  intro c hc
  rw [hpre] at hc
  rcases List.mem_append.mp hc with hc | hc
  · exact noBr_of_local c (List.all_eq_true.mp (prun_all l) c hc)
  · rcases List.mem_cons.mp hc with rfl | hc
    · decide
    · rw [htpre] at hc
      rcases List.mem_append.mp hc with hc | hc
      · exact noBr_of_dom c (List.all_eq_true.mp hkall c hc)
      · rcases List.mem_cons.mp hc with rfl | hc
        · decide
        · rw [ht0pre] at hc
          exact noBr_of_tld c (List.all_eq_true.mp ht0all c hc)

theorem mok_emailM : MOK emailM := by
  constructor
  · intro prev l res h hmem
    exact absurd (emailM_pre_chars h '[' hmem) (by decide)
  · intro prev l res h hmem
    exact absurd (emailM_pre_chars h ']' hmem) (by decide)
  · intro prev l res h
    obtain ⟨r2, t, hln, hrest, hbb, hdt, hpre, hrrest⟩ := emailM_inv h
    refine ⟨'@', ?_, Or.inr rfl⟩
    rw [hpre]
    exact List.mem_append_right _ (List.mem_cons_self _ _)
  · intro prev l res h
    obtain ⟨r2, t, hln, hrest, hbb, hdt, hpre, hrrest⟩ := emailM_inv h
    rw [hpre, headD_append hln]
    exact hbb
  · intro prev l res h
    obtain ⟨r2, t, hln, hrest, hbb, hdt, hpre, hrrest⟩ := emailM_inv h
    obtain ⟨k, r3, tt, hk1, hklen, hkall, hdrop, htld, htpre, htrest⟩ :=
      emailDomTail_inv hdt
    obtain ⟨t0, ht02, ht0len, ht0all, ht0b, ht0pre, ht0rest⟩ := emailTld_inv htld
    have htn : r3.take t0 ≠ [] := by
      intro hcon
      have hlen := congrArg List.length hcon
      rw [ht0len] at hlen
      simp at hlen
      omega
    rw [bdryA, hpre, hrrest, lastW_append (by simp), htrest, ht0rest]
    have hshape : '@' :: t.pre = ('@' :: (r2.take k ++ ['.'])) ++ r3.take t0 := by
      rw [htpre, ht0pre]
      simp
    rw [hshape, lastW_append htn]
    rw [bdryA] at ht0b
    exact ht0b
  · intro prev a r r' res h hpre hw
    obtain ⟨r2, t, hln, hrest, hbb, hdt, hpe, hrrest⟩ := emailM_inv h
    obtain ⟨k, r3, tt, hk1, hklen, hkall, hdrop, htld, htpre, htrest⟩ :=
      emailDomTail_inv hdt
    obtain ⟨t0, ht02, ht0len, ht0all, ht0b, ht0pre, ht0rest⟩ := emailTld_inv htld
    have hrr : res.rest = r := by
      have h2 := res.heq
      rw [hpre] at h2
      exact (List.append_cancel_left h2).symm
    have htldlen : 2 ≤ (r3.take t0).length := by rw [ht0len]; exact ht02
    have hdomne : r2.take k ≠ [] := by
      intro hcon
      have hlen := congrArg List.length hcon
      rw [hklen] at hlen
      simp at hlen
      omega
    have hbtld : bdryA (r3.take t0) r' = true := by
      rw [bdryA, hw, ← hrr, hrrest, htrest, ht0rest]
      rw [bdryA] at ht0b
      exact ht0b
    have hsome := emailM_some prev hln (prun_all (a ++ r)) hbb hdomne
      hkall htldlen ht0all hbtld
    refine matcher_isSome_congr hsome ?_
    conv_rhs => rw [← hpre, hpe, htpre, ht0pre]
    simp [List.append_assoc]

theorem subst_nil {m : Matcher} {rep : List Char} {prev : Bool} :
    subst m rep prev [] = [] := by
  rw [subst]

theorem subst_cons_some {m : Matcher} {rep : List Char} {prev : Bool}
    {c : Char} {cs : List Char} {res : MRes (c :: cs)}
    (h : m prev (c :: cs) = some res) :
    subst m rep prev (c :: cs) = rep ++ subst m rep (lastW res.pre) res.rest := by
  rw [subst, h]

theorem subst_cons_none {m : Matcher} {rep : List Char} {prev : Bool}
    {c : Char} {cs : List Char} (h : m prev (c :: cs) = none) :
    subst m rep prev (c :: cs) = c :: subst m rep (isWordChar c) cs := by
  rw [subst, h]

theorem noMatch_nil {q : Matcher} {p : Bool} : noMatch q p [] = true := by
  rw [noMatch]

theorem noMatch_cons {q : Matcher} {p : Bool} {c : Char} {cs : List Char} :
    noMatch q p (c :: cs) =
      ((q p (c :: cs)).isNone && noMatch q (isWordChar c) cs) := by
  rw [noMatch]

theorem match_fail_nil (q : Matcher) (prev : Bool) : q prev [] = none := by
  cases hq : q prev [] with
  | none => rfl
  | some res =>
    have h2 := res.heq
    rcases List.append_eq_nil.mp h2.symm with ⟨hp, _⟩
    exact absurd hp res.hne

theorem match_head_eq {q : Matcher} {prev : Bool} {c : Char} {cs : List Char}
    {res : MRes (c :: cs)} (h : q prev (c :: cs) = some res) :
    ∃ t, res.pre = c :: t := by
  cases hp : res.pre with
  | nil => exact absurd hp res.hne
  | cons x t =>
    have h2 := res.heq
    rw [hp, List.cons_append, List.cons.injEq] at h2
    exact ⟨t, by rw [h2.1]⟩

theorem match_fail_br {q : Matcher} (hq : MOK q) (prev : Bool) {b : Char}
    (hb : b = '[' ∨ b = ']') (X : List Char) : q prev (b :: X) = none := by
  cases hqq : q prev (b :: X) with
  | none => rfl
  | some res =>
    obtain ⟨t, hp⟩ := match_head_eq hqq
    have hmem : b ∈ res.pre := by
      rw [hp]
      exact List.mem_cons_self _ _
    rcases hb with rfl | rfl
    · exact absurd hmem (hq.no_lbr _ _ _ hqq)
    · exact absurd hmem (hq.no_rbr _ _ _ hqq)

theorem prefix_mem_of_append {pre : List Char} :
    ∀ {rest ms X : List Char} {y : Char},
      pre ++ rest = ms ++ y :: X → y ∉ pre → ∀ c ∈ pre, c ∈ ms := by
  induction pre with
  | nil =>
    intro rest ms X y _ _ c hc
    cases hc
  | cons p pt ih =>
    intro rest ms X y heq hy c hc
    cases ms with
    | nil =>
      rw [List.nil_append, List.cons_append, List.cons.injEq] at heq
      exact absurd (heq.1 ▸ List.mem_cons_self p pt) hy
    | cons mh mt =>
      rw [List.cons_append, List.cons_append, List.cons.injEq] at heq
      rcases List.mem_cons.mp hc with rfl | hc2
      · rw [heq.1]
        exact List.mem_cons_self _ _
      · have hy2 : y ∉ pt := fun hyy => hy (List.mem_cons_of_mem _ hyy)
        exact List.mem_cons_of_mem _ (ih heq.2 hy2 c hc2)

theorem match_fail_mid {q : Matcher} (hq : MOK q) (prev : Bool)
    (ms X : List Char) (hms : ∀ c ∈ ms, midprop c) :
    q prev (ms ++ ']' :: X) = none := by
  cases hqq : q prev (ms ++ ']' :: X) with
  | none => rfl
  | some res =>
    have hy : ']' ∉ res.pre := hq.no_rbr _ _ _ hqq
    have hsub : ∀ c ∈ res.pre, c ∈ ms :=
      prefix_mem_of_append res.heq.symm hy
    obtain ⟨c, hc, hcm⟩ := hq.has_mark _ _ _ hqq
    have hmp := hms c (hsub c hc)
    rcases hcm with hd | ha
    · rw [hmp.1] at hd
      cases hd
    · exact absurd ha hmp.2.1

theorem noMatch_mid {q : Matcher} (hq : MOK q) : ∀ (ms : List Char),
    (∀ c ∈ ms, midprop c) → ∀ (p : Bool) (X : List Char),
    noMatch q p (ms ++ ']' :: X) = noMatch q false X := by
  intro ms
  induction ms with
  | nil =>
    intro _ p X
    rw [List.nil_append, noMatch_cons,
      match_fail_br hq p (Or.inr rfl) X,
      show isWordChar ']' = false from by decide]
    rfl
  | cons c ms' ih =>
    intro hms p X
    rw [List.cons_append, noMatch_cons]
    have hfail : q p (c :: (ms' ++ ']' :: X)) = none :=
      match_fail_mid hq p (c :: ms') X hms
    rw [hfail]
    have := ih (fun d hd => hms d (List.mem_cons_of_mem c hd)) (isWordChar c) X
    rw [Option.isNone_none, Bool.true_and]
    exact this

theorem noMatch_rep {q : Matcher} (hq : MOK q) {rep : List Char}
    (hrep : RepOK rep) (p : Bool) (X : List Char) :
    noMatch q p (rep ++ X) = noMatch q false X := by
  obtain ⟨mid, hshape, hmid⟩ := hrep
  have hre : rep ++ X = '[' :: (mid ++ ']' :: X) := by
    rw [hshape]
    simp
  rw [hre, noMatch_cons, match_fail_br hq p (Or.inl rfl) _,
    show isWordChar '[' = false from by decide, Option.isNone_none,
    Bool.true_and]
  exact noMatch_mid hq mid hmid false X

theorem noMatch_suffix {q : Matcher} : ∀ {a : List Char} {p : Bool}
    {b : List Char}, noMatch q p (a ++ b) = true → a ≠ [] →
    noMatch q (lastW a) b = true := by
  intro a
  induction a with
  | nil =>
    intro p b _ hne
    exact absurd rfl hne
  | cons x t ih =>
    intro p b h _
    rw [List.cons_append, noMatch_cons, Bool.and_eq_true] at h
    cases t with
    | nil =>
      have h2 := h.2
      rw [List.nil_append] at h2
      rw [show lastW [x] = isWordChar x from by rw [lastW]; rfl]
      exact h2
    | cons y ys =>
      have h3 := ih (p := isWordChar x) h.2 (by simp)
      rw [show lastW (x :: y :: ys) = lastW (y :: ys) from
        lastW_append (a := [x]) (by simp)]
      exact h3

theorem match_fail_nonword {q : Matcher} (hq : MOK q) {X : List Char}
    (hX : headW X = false) : q false X = none := by
  cases X with
  | nil => exact match_fail_nil q false
  | cons x t =>
    cases hqq : q false (x :: t) with
    | none => rfl
    | some res =>
      obtain ⟨tt, hp⟩ := match_head_eq hqq
      have hb := hq.bdry_before _ _ _ hqq
      rw [hp] at hb
      rw [headW] at hX
      rw [show (x :: tt).headD '~' = x from rfl, bdryB, hX] at hb
      cases hb

theorem noMatch_false_of {q : Matcher} (hq : MOK q) {X : List Char} {b : Bool}
    (hX : headW X = false) (h : noMatch q b X = true) :
    noMatch q false X = true := by
  cases X with
  | nil => exact noMatch_nil
  | cons x t =>
    rw [noMatch_cons, Bool.and_eq_true] at h ⊢
    refine ⟨?_, h.2⟩
    rw [match_fail_nonword hq hX]
    rfl

theorem subst_headW {m : Matcher} {rep : List Char} (hrep : RepOK rep)
    (b : Bool) (rest : List Char) :
    headW (subst m rep b rest) = false ∨
      headW (subst m rep b rest) = headW rest := by
  obtain ⟨mid, hshape, _⟩ := hrep
  cases rest with
  | nil =>
    left
    rw [subst_nil]
    rfl
  | cons c cs =>
    cases hm0 : m b (c :: cs) with
    | some res =>
      left
      rw [subst_cons_some hm0, hshape]
      rfl
    | none =>
      right
      rw [subst_cons_none hm0]
      rfl

theorem matcher_congr {m : Matcher} {prev : Bool} {l l' : List Char}
    {res : MRes l} (h : m prev l = some res) (hl : l = l') :
    ∃ (hr : l' = res.pre ++ res.rest) (hn : res.pre ≠ []),
      m prev l' = some ⟨res.pre, res.rest, hr, hn⟩ := by
  subst hl
  exact ⟨res.heq, res.hne, h⟩

/-- If the output of one substitution pass splits as `k ++ R` with `k`
nonempty and bracket-free, then `k` is literally a prefix of the input,
and the remainders `R` and `R'` agree on emptiness and head wordness
(except that after a replacement token the input head is word exactly
when `k`'s last char is not). -/
theorem subst_split {m : Matcher} (hm : MOK m) {rep : List Char}
    (hrep : RepOK rep) : ∀ (l : List Char) (prev : Bool) (k R : List Char),
    subst m rep prev l = k ++ R → k ≠ [] → '[' ∉ k →
    ∃ R', l = k ++ R' ∧
      ((R = [] ∧ R' = []) ∨
       (∃ (c : Char) (t : List Char), R = c :: t ∧
        ∃ (c' : Char) (t' : List Char), R' = c' :: t' ∧
         (isWordChar c' = isWordChar c ∨
          (isWordChar c = false ∧ isWordChar c' = !(lastW k))))) := by
  intro l
  induction l with
  | nil =>
    intro prev k R h hkne _
    rw [subst_nil] at h
    rcases List.append_eq_nil.mp h.symm with ⟨hk, _⟩
    exact absurd hk hkne
  | cons c cs ih =>
    intro prev k R h hkne hkbr
    cases hm0 : m prev (c :: cs) with
    | some res =>
      rw [subst_cons_some hm0] at h
      obtain ⟨mid, hshape, _⟩ := hrep
      cases k with
      | nil => exact absurd rfl hkne
      | cons k0 kt =>
        rw [hshape] at h
        simp only [List.cons_append, List.cons.injEq] at h
        apply absurd _ hkbr
        rw [← h.1]
        exact List.mem_cons_self _ _
    | none =>
      rw [subst_cons_none hm0] at h
      cases k with
      | nil => exact absurd rfl hkne
      | cons k0 kt =>
        rw [List.cons_append, List.cons.injEq] at h
        cases kt with
        | nil =>
          have hR : subst m rep (isWordChar c) cs = R := by
            have h2 := h.2
            rw [List.nil_append] at h2
            exact h2
          refine ⟨cs, by rw [← h.1]; rfl, ?_⟩
          cases cs with
          | nil =>
            left
            refine ⟨?_, rfl⟩
            rw [← hR, subst_nil]
          | cons c2 cs2 =>
            right
            cases hm2 : m (isWordChar c) (c2 :: cs2) with
            | some res2 =>
              obtain ⟨mid, hshape, _⟩ := hrep
              rw [subst_cons_some hm2] at hR
              refine ⟨'[', (mid ++ [']']) ++
                subst m rep (lastW res2.pre) res2.rest, ?_, c2, cs2, rfl,
                Or.inr ⟨by decide, ?_⟩⟩
              · rw [← hR, hshape]
                simp
              · obtain ⟨tt, hpt⟩ := match_head_eq hm2
                have hb := hm.bdry_before _ _ _ hm2
                rw [hpt] at hb
                rw [show ((c2 :: tt).headD '~') = c2 from rfl, bdryB] at hb
                rw [show lastW [k0] = isWordChar k0 from
                  by rw [lastW]; rfl, ← h.1]
                cases hcw : isWordChar c <;> cases hc2 : isWordChar c2 <;>
                  simp [hcw, hc2] at hb ⊢
            | none =>
              rw [subst_cons_none hm2] at hR
              exact ⟨c2, subst m rep (isWordChar c2) cs2, hR.symm, c2, cs2,
                rfl, Or.inl rfl⟩
        | cons k1 kt' =>
          have hkbr' : '[' ∉ k1 :: kt' :=
            fun hx => hkbr (List.mem_cons_of_mem _ hx)
          obtain ⟨R', hR1, hrel⟩ :=
            ih (isWordChar c) (k1 :: kt') R h.2 (by simp) hkbr'
          refine ⟨R', ?_, ?_⟩
          · rw [List.cons_append, ← hR1, h.1]
          · rw [show lastW (k0 :: k1 :: kt') = lastW (k1 :: kt') from
              lastW_append (a := [k0]) (by simp)]
            exact hrel

/-- A pass of `subst` with an `MOK` matcher and a `RepOK` replacement
never creates a new occurrence of a pattern recognised by another `MOK`
matcher `q`: if `q` fails on the input at a position, it fails on the
output. Stated at the start of the string. -/
theorem subst_no_new {m q : Matcher} (hm : MOK m) (hq : MOK q)
    {rep : List Char} (hrep : RepOK rep) (prev : Bool) (l : List Char)
    (hql : q prev l = none) : q prev (subst m rep prev l) = none := by
  cases hqq : q prev (subst m rep prev l) with
  | none => rfl
  | some res =>
    have hbr : '[' ∉ res.pre := hq.no_lbr _ _ _ hqq
    obtain ⟨R', hl, hrel⟩ :=
      subst_split hm hrep l prev res.pre res.rest res.heq res.hne hbr
    have hhw : headW R' = headW res.rest := by
      rcases hrel with ⟨hR, hR'⟩ | ⟨c, t, hR, c', t', hR', hcase⟩
      · rw [hR, hR']
      · rcases hcase with he | ⟨hcf, hcw⟩
        · rw [hR, hR', headW, headW]
          exact he
        · have hba := hq.bdry_after _ _ _ hqq
          rw [bdryA, hR] at hba
          rw [show headW (c :: t) = isWordChar c from rfl, hcf] at hba
          have hlt : lastW res.pre = true := by
            cases hlw : lastW res.pre with
            | false => rw [hlw] at hba; cases hba
            | true => rfl
          rw [hR, hR', headW, headW, hcw, hlt, hcf]
          rfl
    obtain ⟨hr2, hn2, hqq2⟩ := matcher_congr hqq res.heq
    have hsome := hq.tail_stable prev res.pre res.rest R' _ hqq2 rfl hhw
    have : (q prev (res.pre ++ R')).isSome = true := hsome
    rw [← hl, hql] at this
    cases this

theorem pfxOf_self_append : ∀ (p x : List Char), pfxOf p (p ++ x) = true := by
  intro p
  induction p with
  | nil => intro x; rfl
  | cons a as ih =>
    intro x
    rw [List.cons_append]
    simp [pfxOf, ih x]

theorem pfxOf_iff : ∀ {p l : List Char}, pfxOf p l = true → ∃ w, l = p ++ w := by
  intro p
  induction p with
  | nil => intro l _; exact ⟨l, rfl⟩
  | cons a as ih =>
    intro l h
    cases l with
    | nil => rw [pfxOf] at h; cases h
    | cons b bs =>
      rw [pfxOf, Bool.and_eq_true] at h
      obtain ⟨w, hw⟩ := ih h.2
      refine ⟨w, ?_⟩
      rw [List.cons_append, ← hw, show b = a from (beq_iff_eq.mp h.1).symm]

theorem infxOf_iff : ∀ {l p : List Char}, infxOf p l = true →
    ∃ u w, l = u ++ (p ++ w) := by
  intro l
  induction l with
  | nil =>
    intro p h
    rw [infxOf] at h
    obtain ⟨w, hw⟩ := pfxOf_iff h
    exact ⟨[], w, hw⟩
  | cons c t ih =>
    intro p h
    rw [infxOf, Bool.or_eq_true] at h
    rcases h with h | h
    · obtain ⟨w, hw⟩ := pfxOf_iff h
      exact ⟨[], w, hw⟩
    · obtain ⟨u, w, hw⟩ := ih h
      exact ⟨c :: u, w, by rw [hw]; rfl⟩

theorem infxOf_append_self (p x : List Char) (hp : p ≠ []) :
    infxOf p (p ++ x) = true := by
  cases p with
  | nil => exact absurd rfl hp
  | cons a as =>
    rw [List.cons_append, infxOf, ← List.cons_append, pfxOf_self_append]
    rfl

theorem infxOf_cons {p t : List Char} (c : Char)
    (h : infxOf p t = true) : infxOf p (c :: t) = true := by
  rw [infxOf, h]
  simp

theorem infxOf_append_left {p b : List Char} (a : List Char)
    (h : infxOf p b = true) : infxOf p (a ++ b) = true := by
  induction a with
  | nil => exact h
  | cons c t ih =>
    rw [List.cons_append]
    exact infxOf_cons c ih

theorem skip_pre {pre : List Char} : ∀ {rest u w t : List Char},
    pre ++ rest = u ++ ('[' :: t) ++ w → '[' ∉ pre →
    ∃ u', rest = u' ++ ('[' :: t) ++ w := by
  induction pre with
  | nil =>
    intro rest u w t h _
    rw [List.nil_append] at h
    exact ⟨u, h⟩
  | cons p pt ih =>
    intro rest u w t h hbr
    cases u with
    | nil =>
      rw [List.nil_append, List.cons_append, List.cons_append,
        List.cons.injEq] at h
      refine absurd ?_ hbr
      rw [h.1]
      exact List.mem_cons_self _ _
    | cons x ut =>
      have h' : p :: (pt ++ rest) = x :: ((ut ++ ('[' :: t)) ++ w) := h
      injection h' with h1 h2
      exact ih h2 (fun hx => hbr (List.mem_cons_of_mem _ hx))

/-- Substitution copies a mid-bracket run verbatim: no match can start
inside `ms ++ [']']` (no digit or `@` before the unconsumable `]`). -/
theorem subst_mid {q : Matcher} (hq : MOK q) {rep2 : List Char} :
    ∀ (ms : List Char), (∀ c ∈ ms, midprop c) → ∀ (p : Bool) (X : List Char),
    subst q rep2 p (ms ++ ']' :: X) = ms ++ ']' :: subst q rep2 false X := by
  intro ms
  induction ms with
  | nil =>
    intro _ p X
    rw [List.nil_append, subst_cons_none (match_fail_br hq p (Or.inr rfl) X),
      show isWordChar ']' = false from by decide]
    rfl
  | cons c ms' ih =>
    intro hms p X
    show subst q rep2 p (c :: (ms' ++ ']' :: X)) =
      c :: (ms' ++ ']' :: subst q rep2 false X)
    have hfail : q p (c :: (ms' ++ ']' :: X)) = none :=
      match_fail_mid hq p (c :: ms') X hms
    rw [subst_cons_none hfail,
      ih (fun d hd => hms d (List.mem_cons_of_mem c hd)) (isWordChar c) X]

/-- A later pass never destroys an already-emitted placeholder token:
matches are bracket-free and need a digit or `@`, so they cannot touch
`'['`, `']'` or the capital letters between them. -/
theorem token_kept {q : Matcher} (hq : MOK q) (rep2 : List Char)
    {tok : List Char} (htok : RepOK tok) :
    ∀ (n : Nat) (x : List Char), x.length ≤ n → ∀ prev,
    infxOf tok x = true → infxOf tok (subst q rep2 prev x) = true := by
  intro n
  induction n with
  | zero =>
    intro x hlen prev h
    rw [List.length_eq_zero.mp (Nat.le_zero.mp hlen)] at h ⊢
    rw [subst_nil]
    exact h
  | succ n ihn =>
    intro x hlen prev h
    cases x with
    | nil =>
      rw [subst_nil]
      exact h
    | cons c cs =>
      have hlen' : cs.length ≤ n := by
        simp only [List.length_cons] at hlen
        omega
      cases hm0 : q prev (c :: cs) with
      | none =>
        rw [subst_cons_none hm0]
        rw [infxOf, Bool.or_eq_true] at h
        rcases h with h | h
        · obtain ⟨mid, hshape, hmid⟩ := htok
          obtain ⟨w, hw⟩ := pfxOf_iff h
          rw [hshape, List.cons_append] at hw
          injection hw with hc hcs0
          have hcs : cs = mid ++ ']' :: w := by
            rw [hcs0]
            simp
          rw [hcs, show isWordChar c = false from by rw [hc]; decide,
            subst_mid hq mid hmid false w, hc]
          rw [show ('[' : Char) :: (mid ++ ']' :: subst q rep2 false w) =
              tok ++ subst q rep2 false w from by rw [hshape]; simp]
          exact infxOf_append_self tok _ (by rw [hshape]; simp)
        · exact infxOf_cons c (ihn cs hlen' (isWordChar c) h)
      | some res =>
        rw [subst_cons_some hm0]
        obtain ⟨u, w, hw⟩ := infxOf_iff h
        obtain ⟨mid, hshape, _⟩ := htok
        have hbr : '[' ∉ res.pre := hq.no_lbr _ _ _ hm0
        have heq2 : res.pre ++ res.rest =
            u ++ ('[' :: (mid ++ [']'])) ++ w := by
          rw [← res.heq, hw, hshape]
          simp
        obtain ⟨u', hu'⟩ := skip_pre heq2 hbr
        have hshape' : tok = '[' :: (mid ++ [']']) := by
          rw [hshape, List.cons_append]
        have htokin : infxOf tok res.rest = true := by
          rw [hu', ← hshape', List.append_assoc]
          exact infxOf_append_left u'
            (infxOf_append_self tok w (by rw [hshape]; simp))
        have hlen2 : res.rest.length ≤ n := by
          have h2 := congrArg List.length res.heq
          simp only [List.length_cons, List.length_append] at h2
          have hp := List.length_pos.mpr res.hne
          omega
        exact infxOf_append_left rep2
          (ihn res.rest hlen2 (lastW res.pre) htokin)

/-- One pass of `subst` preserves freeness from another `MOK` pattern `q`:
if the scan finds no `q`-match in the input, it finds none in the
output. -/
theorem noMatch_subst {m q : Matcher} (hm : MOK m) (hq : MOK q)
    {rep : List Char} (hrep : RepOK rep) :
    ∀ (n : Nat) (l : List Char), l.length ≤ n → ∀ prev,
    noMatch q prev l = true → noMatch q prev (subst m rep prev l) = true := by
  intro n
  induction n with
  | zero =>
    intro l hlen prev _
    rw [List.length_eq_zero.mp (Nat.le_zero.mp hlen), subst_nil]
    exact noMatch_nil
  | succ n ihn =>
    intro l hlen prev h
    cases l with
    | nil =>
      rw [subst_nil]
      exact noMatch_nil
    | cons c cs =>
      cases hm0 : m prev (c :: cs) with
      | none =>
        rw [subst_cons_none hm0, noMatch_cons]
        rw [noMatch_cons, Bool.and_eq_true] at h
        rw [Bool.and_eq_true]
        refine ⟨?_, ?_⟩
        · have hnone : q prev (c :: cs) = none :=
            Option.isNone_iff_eq_none.mp h.1
          have hnn := subst_no_new hm hq hrep prev (c :: cs) hnone
          rw [subst_cons_none hm0] at hnn
          rw [hnn]
          rfl
        · refine ihn cs ?_ (isWordChar c) h.2
          simp only [List.length_cons] at hlen
          omega
      | some res =>
        rw [subst_cons_some hm0, noMatch_rep hq hrep]
        have hsuf : noMatch q (lastW res.pre) res.rest = true := by
          rw [res.heq] at h
          exact noMatch_suffix h res.hne
        have hlen2 : res.rest.length ≤ n := by
          have h2 := congrArg List.length res.heq
          simp only [List.length_cons, List.length_append] at h2
          have hp := List.length_pos.mpr res.hne
          simp only [List.length_cons] at hlen
          omega
        have hx := ihn res.rest hlen2 (lastW res.pre) hsuf
        cases hlw : lastW res.pre with
        | false =>
          rw [hlw] at hx
          exact hx
        | true =>
          have hhx : headW (subst m rep true res.rest) = false := by
            rcases subst_headW (m := m) hrep true res.rest with h0 | h0
            · exact h0
            · rw [h0]
              have hba := hm.bdry_after _ _ _ hm0
              rw [bdryA, hlw] at hba
              cases hhr : headW res.rest with
              | false => rfl
              | true =>
                rw [hhr] at hba
                cases hba
          rw [hlw] at hx
          exact noMatch_false_of hq hhx hx

/-- One pass of `subst` removes every occurrence of its own pattern:
after the pass, the scan with the same matcher finds nothing. -/
theorem noMatch_subst_self {m : Matcher} (hm : MOK m) {rep : List Char}
    (hrep : RepOK rep) : ∀ (n : Nat) (l : List Char), l.length ≤ n →
    ∀ prev, noMatch m prev (subst m rep prev l) = true := by
  intro n
  induction n with
  | zero =>
    intro l hlen prev
    rw [List.length_eq_zero.mp (Nat.le_zero.mp hlen), subst_nil]
    exact noMatch_nil
  | succ n ihn =>
    intro l hlen prev
    cases l with
    | nil =>
      rw [subst_nil]
      exact noMatch_nil
    | cons c cs =>
      cases hm0 : m prev (c :: cs) with
      | none =>
        rw [subst_cons_none hm0, noMatch_cons]
        rw [Bool.and_eq_true]
        refine ⟨?_, ?_⟩
        · have hnn := subst_no_new hm hm hrep prev (c :: cs) hm0
          rw [subst_cons_none hm0] at hnn
          rw [hnn]
          rfl
        · refine ihn cs ?_ (isWordChar c)
          simp only [List.length_cons] at hlen
          omega
      | some res =>
        rw [subst_cons_some hm0, noMatch_rep hm hrep]
        have hlen2 : res.rest.length ≤ n := by
          have h2 := congrArg List.length res.heq
          simp only [List.length_cons, List.length_append] at h2
          have hp := List.length_pos.mpr res.hne
          simp only [List.length_cons] at hlen
          omega
        have hx := ihn res.rest hlen2 (lastW res.pre)
        cases hlw : lastW res.pre with
        | false =>
          rw [hlw] at hx
          exact hx
        | true =>
          have hhx : headW (subst m rep true res.rest) = false := by
            rcases subst_headW (m := m) hrep true res.rest with h0 | h0
            · exact h0
            · rw [h0]
              have hba := hm.bdry_after _ _ _ hm0
              rw [bdryA, hlw] at hba
              cases hhr : headW res.rest with
              | false => rfl
              | true =>
                rw [hhr] at hba
                cases hba
          rw [hlw] at hx
          exact noMatch_false_of hm hhx hx

/-- If the scan does find a match, the pass emits its replacement token
into the output. -/
theorem subst_emits {m : Matcher} {rep : List Char} (hrep : RepOK rep) :
    ∀ (n : Nat) (l : List Char), l.length ≤ n → ∀ prev,
    noMatch m prev l = false → infxOf rep (subst m rep prev l) = true := by
  intro n
  induction n with
  | zero =>
    intro l hlen prev h
    rw [List.length_eq_zero.mp (Nat.le_zero.mp hlen), noMatch_nil] at h
    cases h
  | succ n ihn =>
    intro l hlen prev h
    cases l with
    | nil =>
      rw [noMatch_nil] at h
      cases h
    | cons c cs =>
      cases hm0 : m prev (c :: cs) with
      | some res =>
        rw [subst_cons_some hm0]
        obtain ⟨mid, hshape, _⟩ := hrep
        exact infxOf_append_self rep _ (by rw [hshape]; simp)
      | none =>
        rw [subst_cons_none hm0]
        apply infxOf_cons
        refine ihn cs ?_ (isWordChar c) ?_
        · simp only [List.length_cons] at hlen
          omega
        · rw [noMatch_cons, hm0] at h
          simpa using h

theorem repOK_cpf : RepOK "[CPF]".toList := ⟨"CPF".toList, rfl, by decide⟩

theorem repOK_cnpj : RepOK "[CNPJ]".toList := ⟨"CNPJ".toList, rfl, by decide⟩

theorem repOK_rg : RepOK "[RG]".toList := ⟨"RG".toList, rfl, by decide⟩

theorem repOK_card : RepOK "[CARD]".toList := ⟨"CARD".toList, rfl, by decide⟩

theorem repOK_email : RepOK "[EMAIL]".toList := ⟨"EMAIL".toList, rfl, by decide⟩

theorem repOK_cep : RepOK "[CEP]".toList := ⟨"CEP".toList, rfl, by decide⟩

/-! ## Proofs: total average-confidence computation (C10) -/

/-- C10: the document-ingestion adapter's average-confidence computation
is total: when the (defaulted) act list of the first output is empty and
the outputs-present check passes, the adapter succeeds and reports
`confidence_avg = 0` and `total_atos = 0` instead of dividing by
zero. -/
theorem claim_C10_empty_avg (r : LFResponse) (main : RawOutput)
    (rest : List RawOutput) (h : r.outputs = main :: rest)
    (hatos : main.atos.getD [] = []) :
    process_pdf_response r = .ok
      { livro_metadata := main.livro_metadata.getD {}
        atos := []
        processing_stats :=
          { total_atos := 0
            processing_time := main.processing_time.getD 0
            confidence_avg := 0 } } := by
  cases r with
  | mk outs =>
    cases h
    rw [process_pdf_response]
    simp [hatos]

theorem claim_C10_empty_avg_witness :
    (⟨[{}]⟩ : LFResponse).outputs = ({} : RawOutput) :: [] ∧
    ({} : RawOutput).atos.getD [] = [] ∧
    process_pdf_response ⟨[{}]⟩ = .ok
      { livro_metadata := {}
        atos := []
        processing_stats :=
          { total_atos := 0, processing_time := 0, confidence_avg := 0 } } :=
  ⟨rfl, rfl, claim_C10_empty_avg ⟨[{}]⟩ {} [] rfl rfl⟩

/-! ## Proofs: prompt PII pattern sanitization (C6) -/

/-- C6: for every prompt in which the scan finds an occurrence of the
grouped 11-digit CPF pattern, the sanitized prompt contains the `[CPF]`
placeholder token, contains no occurrence of the CPF pattern any more,
and the replacements introduce no new match of any of the six
sanitization patterns: the sanitized prompt is free of all of them. -/
theorem claim_C6_sanitize_prompt (s : String)
    (hcpf : noMatch cpfM false s.data = false) :
    infxOf "[CPF]".toList (sanitize_prompt s).data = true ∧
    noMatch cpfM false (sanitize_prompt s).data = true ∧
    noMatch cnpjM false (sanitize_prompt s).data = true ∧
    noMatch rgM false (sanitize_prompt s).data = true ∧
    noMatch cardM false (sanitize_prompt s).data = true ∧
    noMatch emailM false (sanitize_prompt s).data = true ∧
    noMatch cepM false (sanitize_prompt s).data = true := by
  have hne : s.data ≠ [] := by
    intro h0
    rw [h0, noMatch_nil] at hcpf
    cases hcpf
  have hdat : (sanitize_prompt s).data = sanitize_promptL s.data := by
    rw [sanitize_prompt, if_neg]
    intro hemp
    exact hne (by rw [(String.isEmpty_iff s).mp hemp])
  rw [hdat, sanitize_promptL]
  set L1 := subst cpfM "[CPF]".toList false s.data with hL1
  set L2 := subst cnpjM "[CNPJ]".toList false L1 with hL2
  set L3 := subst rgM "[RG]".toList false L2 with hL3
  set L4 := subst cardM "[CARD]".toList false L3 with hL4
  set L5 := subst emailM "[EMAIL]".toList false L4 with hL5
  have e1 : infxOf "[CPF]".toList L1 = true :=
    subst_emits repOK_cpf s.data.length s.data le_rfl false hcpf
  have e2 : infxOf "[CPF]".toList L2 = true :=
    token_kept mok_cnpjM "[CNPJ]".toList repOK_cpf L1.length L1 le_rfl
      false e1
  have e3 : infxOf "[CPF]".toList L3 = true :=
    token_kept mok_rgM "[RG]".toList repOK_cpf L2.length L2 le_rfl false e2
  have e4 : infxOf "[CPF]".toList L4 = true :=
    token_kept mok_cardM "[CARD]".toList repOK_cpf L3.length L3 le_rfl
      false e3
  have e5 : infxOf "[CPF]".toList L5 = true :=
    token_kept mok_emailM "[EMAIL]".toList repOK_cpf L4.length L4 le_rfl
      false e4
  have e6 : infxOf "[CPF]".toList (subst cepM "[CEP]".toList false L5) =
      true :=
    token_kept mok_cepM "[CEP]".toList repOK_cpf L5.length L5 le_rfl
      false e5
  have c1 : noMatch cpfM false L1 = true :=
    noMatch_subst_self mok_cpfM repOK_cpf s.data.length s.data le_rfl false
  have c2 : noMatch cpfM false L2 = true :=
    noMatch_subst mok_cnpjM mok_cpfM repOK_cnpj L1.length L1 le_rfl false c1
  have c3 : noMatch cpfM false L3 = true :=
    noMatch_subst mok_rgM mok_cpfM repOK_rg L2.length L2 le_rfl false c2
  have c4 : noMatch cpfM false L4 = true :=
    noMatch_subst mok_cardM mok_cpfM repOK_card L3.length L3 le_rfl false c3
  have c5 : noMatch cpfM false L5 = true :=
    noMatch_subst mok_emailM mok_cpfM repOK_email L4.length L4 le_rfl
      false c4
  have c6 : noMatch cpfM false (subst cepM "[CEP]".toList false L5) =
      true :=
    noMatch_subst mok_cepM mok_cpfM repOK_cep L5.length L5 le_rfl false c5
  have d2 : noMatch cnpjM false L2 = true :=
    noMatch_subst_self mok_cnpjM repOK_cnpj L1.length L1 le_rfl false
  have d3 : noMatch cnpjM false L3 = true :=
    noMatch_subst mok_rgM mok_cnpjM repOK_rg L2.length L2 le_rfl false d2
  have d4 : noMatch cnpjM false L4 = true :=
    noMatch_subst mok_cardM mok_cnpjM repOK_card L3.length L3 le_rfl
      false d3
  have d5 : noMatch cnpjM false L5 = true :=
    noMatch_subst mok_emailM mok_cnpjM repOK_email L4.length L4 le_rfl
      false d4
  have d6 : noMatch cnpjM false (subst cepM "[CEP]".toList false L5) =
      true :=
    noMatch_subst mok_cepM mok_cnpjM repOK_cep L5.length L5 le_rfl false d5
  have f3 : noMatch rgM false L3 = true :=
    noMatch_subst_self mok_rgM repOK_rg L2.length L2 le_rfl false
  have f4 : noMatch rgM false L4 = true :=
    noMatch_subst mok_cardM mok_rgM repOK_card L3.length L3 le_rfl false f3
  have f5 : noMatch rgM false L5 = true :=
    noMatch_subst mok_emailM mok_rgM repOK_email L4.length L4 le_rfl
      false f4
  have f6 : noMatch rgM false (subst cepM "[CEP]".toList false L5) =
      true :=
    noMatch_subst mok_cepM mok_rgM repOK_cep L5.length L5 le_rfl false f5
  have g4 : noMatch cardM false L4 = true :=
    noMatch_subst_self mok_cardM repOK_card L3.length L3 le_rfl false
  have g5 : noMatch cardM false L5 = true :=
    noMatch_subst mok_emailM mok_cardM repOK_email L4.length L4 le_rfl
      false g4
  have g6 : noMatch cardM false (subst cepM "[CEP]".toList false L5) =
      true :=
    noMatch_subst mok_cepM mok_cardM repOK_cep L5.length L5 le_rfl false g5
  have k5 : noMatch emailM false L5 = true :=
    noMatch_subst_self mok_emailM repOK_email L4.length L4 le_rfl false
  have k6 : noMatch emailM false (subst cepM "[CEP]".toList false L5) =
      true :=
    noMatch_subst mok_cepM mok_emailM repOK_cep L5.length L5 le_rfl false k5
  have m6 : noMatch cepM false (subst cepM "[CEP]".toList false L5) =
      true :=
    noMatch_subst_self mok_cepM repOK_cep L5.length L5 le_rfl false
  exact ⟨e6, c6, d6, f6, g6, k6, m6⟩

theorem claim_C6_sanitize_prompt_witness :
    noMatch cpfM false ("123.456.789-01" : String).data = false ∧
    (infxOf "[CPF]".toList (sanitize_prompt "123.456.789-01").data = true ∧
     noMatch cpfM false (sanitize_prompt "123.456.789-01").data = true ∧
     noMatch cnpjM false (sanitize_prompt "123.456.789-01").data = true ∧
     noMatch rgM false (sanitize_prompt "123.456.789-01").data = true ∧
     noMatch cardM false (sanitize_prompt "123.456.789-01").data = true ∧
     noMatch emailM false (sanitize_prompt "123.456.789-01").data = true ∧
     noMatch cepM false (sanitize_prompt "123.456.789-01").data = true) :=
  ⟨by decide, claim_C6_sanitize_prompt "123.456.789-01" (by decide)⟩

end ActNexus
